import Mathlib

/-! Conway's Game of Life on a 32x64 LED matrix: `simulation.h`

A shallow embedding of the class `ConwaysGame` of `src/simulation.h` and of
the control loop of `src/main.cpp`, and a verification of the generation
step, the seeding, the rendering and the reseeding policy.

* A `byte[gameRows][gameColumns]` array is represented by its indexing
  function `Nat → Nat → Nat` (row first, then column); a byte is a
  natural number, a byte is "alive" when it is non-zero (C++ truthiness).
* The two pointers `currentGenMap` and `nextGenMap` are of type `MapPtr`:
  null (never assigned), `&genMap_1` or `&genMap_2`.
* Reading or writing through a null pointer, or outside the array bounds,
  is undefined behaviour in C++ and is `none` here.
* `for(int i=0;i<n;i++)` loops are `forLoop` / `forLoopM`.
* `uint8_t` and `uint32_t` arithmetic is reduced modulo `2^8` and `2^32`.
* The pseudo-random source is the sequence `draws` of the values returned by
  the successive calls of `random(2)`; the display is the log of the
  `drawPixel` calls; the library function `color565` is a parameter.
-/

namespace ConwaysLife

/-! ## Data model -/

/-- The constant `#define gameRows 32`. -/
def gameRows : Nat := 32

/-- The constant `#define gameColumns 64`. -/
def gameColumns : Nat := 64

/-- A `byte[gameRows][gameColumns]` array, as its indexing function
(row, then column). Only indices inside `[0,32) x [0,64)` are ever used. -/
abbrev GenMap := Nat → Nat → Nat

/-- The array `g` after the assignment `g[y][x] = v`. -/
def GenMap.set (g : GenMap) (y x v : Nat) : GenMap :=
  fun r c => if r = y ∧ c = x then v else g r c

/-- A value of type `byte (*)[gameRows][gameColumns]` held by the class:
never assigned (null), `&genMap_1` or `&genMap_2`. -/
inductive MapPtr where
  | null : MapPtr
  | map1 : MapPtr
  | map2 : MapPtr
  deriving DecidableEq, Repr

/-- The private data members of `class ConwaysGame`. The display pointer
`matrix` is kept as an address. -/
structure ConwaysGame where
  simColor : Nat
  matrix : Nat
  genMap_1 : GenMap
  genMap_2 : GenMap
  currentGenMap : MapPtr
  nextGenMap : MapPtr

/-- The array a pointer points to: `*p`. -/
def ConwaysGame.deref (s : ConwaysGame) : MapPtr → Option GenMap
  | .null => none
  | .map1 => some s.genMap_1
  | .map2 => some s.genMap_2

/-- The read `(*p)[y][x]`. -/
def ConwaysGame.load (s : ConwaysGame) (p : MapPtr) (y x : Nat) : Option Nat :=
  if y < gameRows ∧ x < gameColumns then
    (s.deref p).bind fun g => some (g y x)
  else none

/-- The read `(*p)[y][x]` with `int` indices: an index that is negative or
past the end of the array is out of range. -/
def ConwaysGame.loadAt (s : ConwaysGame) (p : MapPtr) (y x : Int) : Option Nat :=
  if 0 ≤ y ∧ y < (gameRows : Int) ∧ 0 ≤ x ∧ x < (gameColumns : Int) then
    (s.deref p).bind fun g => some (g y.toNat x.toNat)
  else none

/-- The write `(*p)[y][x] = v`. -/
def ConwaysGame.store (s : ConwaysGame) (p : MapPtr) (y x v : Nat) : Option ConwaysGame :=
  if y < gameRows ∧ x < gameColumns then
    match p with
    | .null => none
    | .map1 => some { s with genMap_1 := s.genMap_1.set y x v }
    | .map2 => some { s with genMap_2 := s.genMap_2.set y x v }
  else none

/-- The current generation `*currentGenMap`. -/
def ConwaysGame.currentGrid (s : ConwaysGame) : Option GenMap :=
  s.deref s.currentGenMap

/-! ## Loops -/

/-- The loop `for(int i=0;i<n;i++) body`, on a state `σ`. -/
def forLoop {σ : Type} (n : Nat) (body : Nat → σ → σ) (s : σ) : σ :=
  match n with
  | 0 => s
  | k + 1 => body k (forLoop k body s)

/-- The loop `for(int i=0;i<n;i++) body` with a body that may be undefined. -/
def forLoopM {σ : Type} (n : Nat) (body : Nat → σ → Option σ) (s : σ) : Option σ :=
  match n with
  | 0 => some s
  | k + 1 => (forLoopM k body s).bind (body k)

/-! ## `ConwaysGame::initSeed` -/

/-- The body of the two seeding loops (lines 58-59 and 66-67): `draws k` is
the value returned by the `k`-th call of `random(2)` of this `initSeed`;
the second component counts the calls made so far. -/
def seedCell (draws : Nat → Nat) (i j : Nat) (st : ConwaysGame × Nat) : ConwaysGame × Nat :=
  let s := st.1
  let k := st.2
  ({ s with genMap_1 := s.genMap_1.set i j (if draws k = 1 then 1 else 0),
            genMap_2 := s.genMap_2.set i j 0 }, k + 1)

/-- The nested loops of lines 56-61 and of lines 64-69. -/
def seedLoops (draws : Nat → Nat) (s : ConwaysGame) : ConwaysGame :=
  (forLoop gameRows (fun i st => forLoop gameColumns (fun j st => seedCell draws i j st) st)
    (s, 0)).1

/-- The assignments of lines 72-87, the hardcoded pattern. -/
def loadPattern (s : ConwaysGame) : ConwaysGame :=
  let centerY : Nat := ((gameRows / 2) - 1) % 256
  let centerX : Nat := ((gameColumns / 2) - 1) % 256
  let g := s.genMap_1
  let g := g.set (centerY - 1) (centerX - 1) 1
  let g := g.set (centerY - 1) centerX 1
  let g := g.set (centerY - 1) (centerX + 1) 1
  let g := g.set centerY (centerX - 1) 1
  let g := g.set centerY (centerX + 1) 1
  let g := g.set (centerY + 1) (centerX - 1) 1
  let g := g.set (centerY + 1) centerX 1
  let g := g.set (centerY + 1) (centerX + 1) 1
  let g := g.set centerY (centerX + 2) 1
  let g := g.set centerY (centerX - 2) 1
  let g := g.set (centerY + 4) centerX 1
  let g := g.set (centerY - 4) centerX 1
  { s with genMap_1 := g }

/-- The method `void ConwaysGame::initSeed(boolean rand)`. The sequence `draws` is what
the successive calls of `random(2)` return (in the `rand` branch, after
`randomSeed(analogRead(26))`). -/
def initSeed (s : ConwaysGame) (rand : Bool) (draws : Nat → Nat) : ConwaysGame :=
  let s1 := if rand then seedLoops draws s else loadPattern (seedLoops draws s)
  { s1 with currentGenMap := .map1 }

/-! ## `ConwaysGame::checkNeighbors` -/

/-- One iteration of the loop of lines 167-191, on the counter
`liveNeighbors` (a `uint8_t`). -/
def neighborIter (s : ConwaysGame) (y x totalRows totalColumns : Nat) (i : Nat)
    (liveNeighbors : Nat) : Option Nat :=
  let yTopLeft : Int := (y : Int) - 1
  let xTopLeft : Int := (x : Int) - 1
  let curYLoc : Int := yTopLeft + ((i / 3 : Nat) : Int)
  let curXLoc : Int := xTopLeft + ((i % 3 : Nat) : Int)
  if curYLoc < 0 ∨ curXLoc < 0 then some liveNeighbors
  else if curYLoc ≥ (totalRows : Int) ∨ curXLoc ≥ (totalColumns : Int) then some liveNeighbors
  else if curXLoc = (x : Int) ∧ curYLoc = (y : Int) then some liveNeighbors
  else
    (s.loadAt s.currentGenMap curYLoc curXLoc).bind fun v =>
      if v ≠ 0 then some ((liveNeighbors + 1) % 256) else some liveNeighbors

/-- The method `bool ConwaysGame::checkNeighbors(uint8_t y, uint8_t x, uint8_t totalRows,
uint8_t totalColumns)`. -/
def checkNeighbors (s : ConwaysGame) (y x totalRows totalColumns : Nat) : Option Bool :=
  (forLoopM 9 (neighborIter s y x totalRows totalColumns) 0).bind fun liveNeighbors =>
  (s.load s.currentGenMap y x).bind fun currentCellState =>
    if currentCellState ≠ 0 then
      if liveNeighbors < 2 then some false
      else if liveNeighbors > 3 then some false
      else some true
    else
      if liveNeighbors = 3 then some true
      else some false

/-! ## `ConwaysGame::calcNextGen` -/

/-- The body of the inner loop of lines 119-130; the second component is
the `uint32_t updates`. -/
def calcCell (i j : Nat) (st : ConwaysGame × Nat) : Option (ConwaysGame × Nat) :=
  let s := st.1
  let updates := st.2
  (checkNeighbors s (i % 256) (j % 256) (gameRows % 256) (gameColumns % 256)).bind fun b =>
  (s.store s.nextGenMap i j (if b then 1 else 0)).bind fun s1 =>
  (s1.load s1.currentGenMap i j).bind fun old =>
  (s1.load s1.nextGenMap i j).bind fun new =>
    some (s1, if old ≠ new then (updates + 1) % 2 ^ 32 else updates)

/-- The method `uint32_t ConwaysGame::calcNextGen()`: the returned `updates` and the
state after the call. -/
def calcNextGen (s : ConwaysGame) : Option (Nat × ConwaysGame) :=
  let s0 : ConwaysGame :=
    { s with nextGenMap := if s.currentGenMap = .map1 then .map2 else .map1 }
  (forLoopM gameRows (fun i st => forLoopM gameColumns (fun j st => calcCell i j st) st)
    (s0, 0)).bind fun st =>
    some (st.2, { st.1 with currentGenMap := st.1.nextGenMap })

/-- A seeded simulation state: one produced by `initSeed` (on any earlier
state, in either mode, for any outcome of `random`), followed by any
number of `calcNextGen` and `initSeed` calls. -/
inductive Seeded : ConwaysGame → Prop where
  | seed (s : ConwaysGame) (rand : Bool) (draws : Nat → Nat) : Seeded (initSeed s rand draws)
  | advance (s s' : ConwaysGame) (n : Nat) :
      Seeded s → calcNextGen s = some (n, s') → Seeded s'

/-! ## The rule of the game, as the specification words it -/

/-- Position `(r, c)` lies inside `[0,32) x [0,64)` and holds an alive cell. -/
def liveAt (g : GenMap) (r c : Int) : Bool :=
  decide (0 ≤ r) && decide (r < 32) && decide (0 ≤ c) && decide (c < 64) &&
    (g r.toNat c.toNat != 0)

/-- The eight offsets `(dr, dc)`, `dr, dc ∈ {-1,0,1}`, `(dr, dc) ≠ (0,0)`. -/
def neighbourOffsets : List (Int × Int) :=
  [(-1, -1), (-1, 0), (-1, 1), (0, -1), (0, 1), (1, -1), (1, 0), (1, 1)]

/-- The number of alive cells among the positions `(r+dr, c+dc)` that lie
inside the grid. -/
def aliveNeighbours (g : GenMap) (r c : Nat) : Nat :=
  neighbourOffsets.countP fun d => liveAt g ((r : Int) + d.1) ((c : Int) + d.2)

/-- The standard rule: a live cell with 2 or 3 live neighbours survives, a
dead cell with exactly 3 live neighbours becomes alive. -/
def lifeRule (g : GenMap) (r c : Nat) : Prop :=
  (g r c ≠ 0 ∧ (aliveNeighbours g r c = 2 ∨ aliveNeighbours g r c = 3)) ∨
  (g r c = 0 ∧ aliveNeighbours g r c = 3)

instance (g : GenMap) (r c : Nat) : Decidable (lifeRule g r c) := by
  unfold lifeRule; infer_instance

/-! ## Intermediate values of the loops -/

/-- The value of `liveNeighbors` after `k` iterations of the loop of
`checkNeighbors` at cell `(y, x)`. -/
def liveAfter (g : GenMap) (y x k : Nat) : Nat :=
  ∑ i in Finset.range k, (if i ≠ 4 ∧
    liveAt g ((y : Int) - 1 + ((i / 3 : Nat) : Int)) ((x : Int) - 1 + ((i % 3 : Nat) : Int))
      = true then 1 else 0)

/-- The byte `calcNextGen` writes for cell `(r, c)`: 1 when the rule makes
the cell alive, 0 otherwise. -/
def newByte (g : GenMap) (r c : Nat) : Nat :=
  if lifeRule g r c then 1 else 0

/-- An array being filled in row-major order with the values `f`: the
cells before `(i, j)` hold `f`, the others still hold `old`. -/
def fillGrid (f old : GenMap) (i j : Nat) : GenMap :=
  fun r c => if (r < i ∧ c < 64) ∨ (r = i ∧ c < j) then f r c else old r c

/-- The scratch buffer when the loops of `calcNextGen` reach cell `(i, j)`:
the cells before `(i, j)` in row-major order hold their new byte, the
others still hold `old`. -/
def nextGrid (g old : GenMap) (i j : Nat) : GenMap :=
  fillGrid (newByte g) old i j

/-- Indicator of a change at `(r, c)`: 1 when the byte written is not the
byte of the current generation, 0 otherwise. -/
def changed (g : GenMap) (r c : Nat) : Nat :=
  if g r c ≠ newByte g r c then 1 else 0

/-- The value of `updates` when the loops of `calcNextGen` reach `(i, j)`. -/
def changesUpTo (g : GenMap) (i j : Nat) : Nat :=
  (∑ r in Finset.range i, ∑ c in Finset.range 64, changed g r c) +
    ∑ c in Finset.range j, changed g i c

/-- The state when the loops of `calcNextGen` reach cell `(i, j)`. -/
def loopState (s : ConwaysGame) (g : GenMap) (i j : Nat) : ConwaysGame :=
  if s.currentGenMap = .map1 then
    { s with genMap_2 := nextGrid g s.genMap_2 i j, nextGenMap := .map2 }
  else
    { s with genMap_1 := nextGrid g s.genMap_1 i j, nextGenMap := .map1 }

/-- The state `calcNextGen` leaves, for a current generation `g`. -/
def advanced (s : ConwaysGame) (g : GenMap) : ConwaysGame :=
  { loopState s g 32 0 with currentGenMap := (loopState s g 32 0).nextGenMap }

/-- The byte the seeding loops write into `genMap_1[r][c]`: the draw number
`r * 64 + c` decides. -/
def seedByte (draws : Nat → Nat) : GenMap :=
  fun r c => if draws (r * 64 + c) = 1 then 1 else 0

/-- The state and the number of draws made when the seeding loops reach
cell `(i, j)`. -/
def seedState (draws : Nat → Nat) (s : ConwaysGame) (i j : Nat) : ConwaysGame × Nat :=
  ({ s with genMap_1 := fillGrid (seedByte draws) s.genMap_1 i j,
            genMap_2 := fillGrid (fun _ _ => 0) s.genMap_2 i j }, i * 64 + j)

/-! ## Example states -/

/-- The constructor `ConwaysGame(disp, color)` on a zero-initialised object
(the global `simulation` of `main.cpp`): arrays and pointers are not
assigned by the constructor. -/
def freshGame (disp color : Nat) : ConwaysGame :=
  { simColor := color, matrix := disp, genMap_1 := fun _ _ => 0, genMap_2 := fun _ _ => 0,
    currentGenMap := .null, nextGenMap := .null }

/-- A draw sequence: every third call of `random(2)` returns 1. -/
def thirds : Nat → Nat := fun k => if k % 3 = 0 then 1 else 0

/-- A glider near the top left corner: alive at (0,1), (1,2), (2,0), (2,1),
(2,2). -/
def glider : GenMap := fun r c =>
  if (r = 0 ∧ c = 1) ∨ (r = 1 ∧ c = 2) ∨ (r = 2 ∧ c ≤ 2) then 1 else 0

/-- The glider as current generation in `genMap_1`, an empty scratch
buffer, colour 7. -/
def gliderInOne : ConwaysGame :=
  { simColor := 7, matrix := 0, genMap_1 := glider, genMap_2 := fun _ _ => 0,
    currentGenMap := .map1, nextGenMap := .map1 }

/-- The glider as current generation in `genMap_2`, a scratch buffer full
of alive cells, colour 40000. -/
def gliderInTwo : ConwaysGame :=
  { simColor := 40000, matrix := 1, genMap_1 := fun _ _ => 1, genMap_2 := glider,
    currentGenMap := .map2, nextGenMap := .map2 }

/-- Every cell alive in the current generation `genMap_1`, the glider left
in the scratch buffer. -/
def allAliveInOne : ConwaysGame :=
  { simColor := 40000, matrix := 1, genMap_1 := fun _ _ => 1, genMap_2 := glider,
    currentGenMap := .map1, nextGenMap := .map1 }

/-- A grid with the corner (0,0), the whole of row 31 and the whole of
column 63 alive, every other cell dead. -/
def cornerAndFarEdges : GenMap := fun r c =>
  if (r = 0 ∧ c = 0) ∨ r = 31 ∨ c = 63 then 1 else 0

/-- A grid with the corner (0,0) alive only. -/
def cornerOnly : GenMap := fun r c => if r = 0 ∧ c = 0 then 1 else 0

/-- The grid `g` as current generation in `genMap_1`, with a scratch buffer
`old`. -/
def gameOn (g old : GenMap) : ConwaysGame :=
  { simColor := 7, matrix := 0, genMap_1 := g, genMap_2 := old,
    currentGenMap := .map1, nextGenMap := .map2 }

/-- A draw sequence that seeds the 2x2 block (5,9), (5,10), (6,9), (6,10). -/
def blockDraws : Nat → Nat := fun k =>
  if k = 5 * 64 + 9 ∨ k = 5 * 64 + 10 ∨ k = 6 * 64 + 9 ∨ k = 6 * 64 + 10 then 1 else 0

/-- A horizontal blinker: alive at (5,8), (5,9), (5,10). -/
def blinkerRow : GenMap := fun r c =>
  if r = 5 ∧ (c = 8 ∨ c = 9 ∨ c = 10) then 1 else 0

/-! ## The fixed pattern, as the specification words it -/

/-- The 12 cells of the documented pattern: the 8 neighbours of the centre
(15,31), and the cells (15,33), (15,29), (19,31) and (11,31). -/
def inPattern (r c : Nat) : Prop :=
  ((14 ≤ r ∧ r ≤ 16) ∧ (30 ≤ c ∧ c ≤ 32) ∧ ¬(r = 15 ∧ c = 31)) ∨
  (r = 15 ∧ c = 33) ∨ (r = 15 ∧ c = 29) ∨ (r = 19 ∧ c = 31) ∨ (r = 11 ∧ c = 31)

instance (r c : Nat) : Decidable (inPattern r c) := by
  unfold inPattern; infer_instance

/-- A draw sequence in which every call of `random(2)` returns 1. -/
def allOnes : Nat → Nat := fun _ => 1

/-! ## `ConwaysGame::drawCurGen` and the sketch `main.cpp` -/

/-- One call `matrix->drawPixel(x, y, color)`. The display is the log of the
calls made so far. -/
structure DrawCall where
  x : Nat
  y : Nat
  color : Nat
  deriving DecidableEq, Repr

/-- The body of the inner loop of lines 222-231. The library function
`Adafruit_Protomatter::color565` is not part of the repository and is a
parameter. -/
def drawCell (color565 : Nat → Nat → Nat → Nat) (i j : Nat)
    (st : ConwaysGame × List DrawCall) : Option (ConwaysGame × List DrawCall) :=
  let s := st.1
  let display := st.2
  (s.load s.currentGenMap i j).bind fun v =>
    if v ≠ 0 then some (s, display ++ [{ x := j, y := i, color := s.simColor }])
    else some (s, display ++ [{ x := j, y := i, color := color565 0 0 0 }])

/-- The method `void ConwaysGame::drawCurGen()`: the state and the display
log after the call. -/
def drawCurGen (color565 : Nat → Nat → Nat → Nat) (s : ConwaysGame)
    (display : List DrawCall) : Option (ConwaysGame × List DrawCall) :=
  forLoopM gameRows (fun i st => forLoopM gameColumns (fun j st => drawCell color565 i j st) st)
    (s, display)

/-- The constant `const uint32_t updateThreshold = 35` of `main.cpp`. -/
def updateThreshold : Nat := 35

/-- The globals of `main.cpp` that the control loop uses: the object
`simulation`, the counter `cellsUpdated` and the display. -/
structure Sketch where
  simulation : ConwaysGame
  cellsUpdated : Nat
  display : List DrawCall

/-- The part of `setup()` of `main.cpp` after the display is brought up: the
global `cellsUpdated` is 0, the simulation is constructed, seeded at random
and drawn. -/
def setup (color565 : Nat → Nat → Nat → Nat) (disp color : Nat) (draws : Nat → Nat)
    (display : List DrawCall) : Option Sketch :=
  (drawCurGen color565 (initSeed (freshGame disp color) true draws) display).bind fun d =>
    some { simulation := d.1, cellsUpdated := 0, display := d.2 }

/-- One pass of `loop()` of `main.cpp` (lines 101-111); `draws` is what
`random(2)` returns if this pass reseeds. The calls `matrix.show()` and
`delay(100)` touch none of the three components. -/
def loop (color565 : Nat → Nat → Nat → Nat) (draws : Nat → Nat) (w : Sketch) : Option Sketch :=
  let sim := if w.cellsUpdated ≤ updateThreshold then initSeed w.simulation true draws
    else w.simulation
  (calcNextGen sim).bind fun r =>
  (drawCurGen color565 r.2 w.display).bind fun d =>
    some { simulation := d.1, cellsUpdated := r.1, display := d.2 }

/-! ## Array writes of `initSeed` with their indices checked -/

/-- The write `(*p)[y][x] = v` with `int` indices: an index that is negative
or past the end of the array is out of range. -/
def ConwaysGame.storeAt (s : ConwaysGame) (p : MapPtr) (y x : Int) (v : Nat) :
    Option ConwaysGame :=
  if 0 ≤ y ∧ y < (gameRows : Int) ∧ 0 ≤ x ∧ x < (gameColumns : Int) then
    s.store p y.toNat x.toNat v
  else none

/-- The assignments of lines 72-87 once more, each write to `genMap_1` with
its index pair checked against the array bounds; the index expressions are
`int` arithmetic on the `uint8_t` values `centerY`, `centerX`. -/
def loadPatternChecked (s : ConwaysGame) : Option ConwaysGame :=
  let centerY : Int := ((((gameRows / 2) - 1) % 256 : Nat) : Int)
  let centerX : Int := ((((gameColumns / 2) - 1) % 256 : Nat) : Int)
  (s.storeAt .map1 (centerY - 1) (centerX - 1) 1).bind fun s =>
  (s.storeAt .map1 (centerY - 1) centerX 1).bind fun s =>
  (s.storeAt .map1 (centerY - 1) (centerX + 1) 1).bind fun s =>
  (s.storeAt .map1 centerY (centerX - 1) 1).bind fun s =>
  (s.storeAt .map1 centerY (centerX + 1) 1).bind fun s =>
  (s.storeAt .map1 (centerY + 1) (centerX - 1) 1).bind fun s =>
  (s.storeAt .map1 (centerY + 1) centerX 1).bind fun s =>
  (s.storeAt .map1 (centerY + 1) (centerX + 1) 1).bind fun s =>
  (s.storeAt .map1 centerY (centerX + 2) 1).bind fun s =>
  (s.storeAt .map1 centerY (centerX - 2) 1).bind fun s =>
  (s.storeAt .map1 (centerY + 4) centerX 1).bind fun s =>
  (s.storeAt .map1 (centerY - 4) centerX 1)

/-- The grid that is not current: the scratch buffer of the next
`calcNextGen`. -/
def ConwaysGame.scratchGrid (s : ConwaysGame) : Option GenMap :=
  match s.currentGenMap with
  | .null => none
  | .map1 => some s.genMap_2
  | .map2 => some s.genMap_1

/-! ## Intermediate values of the drawing loops -/

/-- The call number `k` of `drawCurGen`, for a current generation `g`, the
simulation colour `lit` and the colour `dark` of a dead cell. -/
def pixelAt (g : GenMap) (lit dark : Nat) (k : Nat) : DrawCall :=
  { x := k % 64, y := k / 64, color := if g (k / 64) (k % 64) ≠ 0 then lit else dark }

/-- The first `n` calls of `drawCurGen`. -/
def drawn (g : GenMap) (lit dark : Nat) (n : Nat) : List DrawCall :=
  (List.range n).map (pixelAt g lit dark)

/-- A draw sequence that seeds the glider of `glider`. -/
def gliderDraws : Nat → Nat := fun k =>
  if k = 1 ∨ k = 64 + 2 ∨ k = 128 ∨ k = 128 + 1 ∨ k = 128 + 2 then 1 else 0

/-- The simulation of `main.cpp` seeded with the glider. -/
def gliderAfterSeed : ConwaysGame := initSeed (freshGame 0 7) true gliderDraws

/-- A sketch state in the middle of a run: the simulation is the glider, the
last pass reported 36 changed cells. -/
def busySketch : Sketch :=
  { simulation := gliderAfterSeed, cellsUpdated := 36, display := [] }

/-- A sketch state whose last pass reported 35 changed cells. -/
def quietSketch : Sketch :=
  { simulation := gliderAfterSeed, cellsUpdated := 35, display := [] }

/-! ## Mirror images of a grid -/

/-- The left-right mirror of a grid: cell `(r, c)` is taken from
`(r, 63 - c)`. -/
def mirrorLR (g : GenMap) : GenMap := fun r c => g r (63 - c)

/-- The top-bottom mirror of a grid: cell `(r, c)` is taken from
`(31 - r, c)`. -/
def mirrorTB (g : GenMap) : GenMap := fun r c => g (31 - r) c

/-! # Theorems -/

/-! ## Loop rules -/

theorem forLoopM_inv {σ : Type} (P : Nat → σ → Prop) (body : Nat → σ → Option σ) (n : Nat)
    (s : σ) (h0 : P 0 s)
    (hstep : ∀ k, k < n → ∀ a, P k a → ∃ a', body k a = some a' ∧ P (k + 1) a') :
    ∃ r, forLoopM n body s = some r ∧ P n r := by
  induction n with
  | zero => exact ⟨s, rfl, h0⟩
  | succ k ih =>
    obtain ⟨a, ha, hPa⟩ := ih (fun j hj => hstep j (Nat.lt_succ_of_lt hj))
    obtain ⟨a', ha', hPa'⟩ := hstep k (Nat.lt_succ_self k) a hPa
    exact ⟨a', by simp [forLoopM, ha, ha'], hPa'⟩

theorem forLoopM_eq {σ : Type} (F : Nat → σ) (body : Nat → σ → Option σ) (n : Nat)
    (hstep : ∀ k, k < n → body k (F k) = some (F (k + 1))) :
    forLoopM n body (F 0) = some (F n) := by
  obtain ⟨r, hr, hP⟩ := forLoopM_inv (fun k a => a = F k) body n (F 0) rfl
    (fun k hk a ha => ⟨F (k + 1), by rw [ha]; exact hstep k hk, rfl⟩)
  rw [hr, hP]

/-! ## `checkNeighbors` computes the rule -/

theorem load_current (s : ConwaysGame) (g : GenMap) (hg : s.currentGrid = some g)
    (y x : Nat) (hy : y < 32) (hx : x < 64) :
    s.load s.currentGenMap y x = some (g y x) := by
  unfold ConwaysGame.currentGrid at hg
  simp [ConwaysGame.load, gameRows, gameColumns, hy, hx, hg]

theorem loadAt_current (s : ConwaysGame) (g : GenMap) (hg : s.currentGrid = some g)
    (y x : Int) (hy0 : 0 ≤ y) (hy : y < 32) (hx0 : 0 ≤ x) (hx : x < 64) :
    s.loadAt s.currentGenMap y x = some (g y.toNat x.toNat) := by
  unfold ConwaysGame.currentGrid at hg
  simp [ConwaysGame.loadAt, gameRows, gameColumns, hy0, hy, hx0, hx, hg]

theorem neighborIter_eq (s : ConwaysGame) (g : GenMap) (hg : s.currentGrid = some g)
    (y x i acc : Nat) (hacc : acc < 255) :
    neighborIter s y x 32 64 i acc =
      some (acc + (if i ≠ 4 ∧
        liveAt g ((y : Int) - 1 + ((i / 3 : Nat) : Int)) ((x : Int) - 1 + ((i % 3 : Nat) : Int))
          = true then 1 else 0)) := by
  unfold neighborIter
  simp only []
  have hself : ((x : Int) - 1 + ((i % 3 : Nat) : Int) = (x : Int) ∧
      (y : Int) - 1 + ((i / 3 : Nat) : Int) = (y : Int)) ↔ i = 4 := by
    constructor
    · intro h; omega
    · intro h; subst h; constructor <;> omega
  simp only [hself]
  generalize (y : Int) - 1 + ((i / 3 : Nat) : Int) = cy
  generalize (x : Int) - 1 + ((i % 3 : Nat) : Int) = cx
  by_cases h1 : (cy < 0 ∨ cx < 0)
  · rw [if_pos h1]
    have : liveAt g cy cx = false := by
      unfold liveAt
      rcases h1 with h | h
      · simp [not_le.mpr h]
      · simp [not_le.mpr h]
    simp [this]
  rw [if_neg h1]
  by_cases h2 : (cy ≥ ((32 : Nat) : Int) ∨ cx ≥ ((64 : Nat) : Int))
  · rw [if_pos h2]
    have : liveAt g cy cx = false := by
      unfold liveAt
      rcases h2 with h | h
      · have : ¬ (cy < 32) := by omega
        simp [this]
      · have : ¬ (cx < 64) := by omega
        simp [this]
    simp [this]
  rw [if_neg h2]
  by_cases h3 : i = 4
  · simp [h3]
  rw [if_neg h3]
  have hb1 : (0 : Int) ≤ cy := by omega
  have hb2 : cy < 32 := by omega
  have hb3 : (0 : Int) ≤ cx := by omega
  have hb4 : cx < 64 := by omega
  rw [loadAt_current s g hg cy cx hb1 hb2 hb3 hb4]
  by_cases hv : g cy.toNat cx.toNat = 0
  · simp [liveAt, hv, h3, hb1, hb2, hb3, hb4]
  · have : (acc + 1) % 256 = acc + 1 := Nat.mod_eq_of_lt (by omega)
    simp [liveAt, hv, h3, hb1, hb2, hb3, hb4, this]

theorem liveAfter_le (g : GenMap) (y x k : Nat) : liveAfter g y x k ≤ k := by
  induction k with
  | zero => simp [liveAfter]
  | succ k ih =>
    unfold liveAfter at ih ⊢
    rw [Finset.sum_range_succ]
    split_ifs <;> omega

theorem liveAfter_nine (g : GenMap) (y x : Nat) :
    liveAfter g y x 9 = aliveNeighbours g y x := by
  simp only [liveAfter, aliveNeighbours, neighbourOffsets, Finset.sum_range_succ,
    Finset.sum_range_zero, List.countP_cons, List.countP_nil]
  norm_num
  have e1 : ∀ a : Int, a - 1 + 2 = a + 1 := fun a => by ring
  have e2 : ∀ a : Int, a + -1 = a - 1 := fun a => by ring
  simp only [e1, e2]
  ring

theorem checkNeighbors_eq (s : ConwaysGame) (g : GenMap) (hg : s.currentGrid = some g)
    (y x : Nat) (hy : y < 32) (hx : x < 64) :
    checkNeighbors s y x 32 64 = some (decide (lifeRule g y x)) := by
  have hloop : forLoopM 9 (neighborIter s y x 32 64) 0 = some (aliveNeighbours g y x) := by
    have h := forLoopM_eq (liveAfter g y x) (neighborIter s y x 32 64) 9 (fun k hk => by
      rw [neighborIter_eq s g hg y x k _ (by have := liveAfter_le g y x k; omega)]
      simp only [liveAfter, Finset.sum_range_succ])
    rw [liveAfter_nine] at h
    simpa [liveAfter] using h
  unfold checkNeighbors
  rw [hloop, load_current s g hg y x hy hx]
  simp only [Option.some_bind, lifeRule]
  by_cases hc : g y x = 0
  · by_cases h3 : aliveNeighbours g y x = 3 <;> simp [hc, h3]
  · by_cases h2 : aliveNeighbours g y x < 2
    · have : ¬ aliveNeighbours g y x = 2 := by omega
      have : ¬ aliveNeighbours g y x = 3 := by omega
      simp [hc, h2, *]
    · by_cases h4 : aliveNeighbours g y x > 3
      · have : ¬ aliveNeighbours g y x = 2 := by omega
        have : ¬ aliveNeighbours g y x = 3 := by omega
        simp [hc, h2, h4, *]
      · have : aliveNeighbours g y x = 2 ∨ aliveNeighbours g y x = 3 := by omega
        simp [hc, h2, h4, this]

theorem changed_le_one (g : GenMap) (r c : Nat) : changed g r c ≤ 1 := by
  unfold changed; split_ifs <;> omega

theorem sum_changed_le (g : GenMap) (r n : Nat) :
    ∑ c in Finset.range n, changed g r c ≤ n := by
  induction n with
  | zero => simp
  | succ n ih =>
    rw [Finset.sum_range_succ]
    have := changed_le_one g r n
    omega

theorem changesUpTo_le (g : GenMap) (i j : Nat) : changesUpTo g i j ≤ i * 64 + j := by
  unfold changesUpTo
  have h1 : ∑ r in Finset.range i, ∑ c in Finset.range 64, changed g r c ≤ i * 64 := by
    induction i with
    | zero => simp
    | succ i ih =>
      rw [Finset.sum_range_succ]
      have := sum_changed_le g i 64
      omega
  have h2 := sum_changed_le g i j
  omega

theorem changesUpTo_succ (g : GenMap) (i j : Nat) :
    changesUpTo g i (j + 1) = changesUpTo g i j + changed g i j := by
  unfold changesUpTo
  rw [Finset.sum_range_succ]
  omega

theorem changesUpTo_row (g : GenMap) (i : Nat) :
    changesUpTo g i 64 = changesUpTo g (i + 1) 0 := by
  unfold changesUpTo
  rw [Finset.sum_range_succ (fun r => ∑ c in Finset.range 64, changed g r c) i]
  simp

theorem fillGrid_set (f old : GenMap) (i j : Nat) :
    (fillGrid f old i j).set i j (f i j) = fillGrid f old i (j + 1) := by
  funext r c
  unfold GenMap.set fillGrid
  by_cases h : r = i ∧ c = j
  · obtain ⟨rfl, rfl⟩ := h
    simp
  · rw [if_neg h]
    have : ((r < i ∧ c < 64) ∨ (r = i ∧ c < j)) ↔ ((r < i ∧ c < 64) ∨ (r = i ∧ c < j + 1)) := by
      constructor
      · rintro (h1 | h1)
        · exact Or.inl h1
        · exact Or.inr ⟨h1.1, by omega⟩
      · rintro (h1 | h1)
        · exact Or.inl h1
        · refine Or.inr ⟨h1.1, ?_⟩
          have : c ≠ j := fun hc => h ⟨h1.1, hc⟩
          omega
    simp only [this]

theorem fillGrid_row (f old : GenMap) (i : Nat) :
    fillGrid f old i 64 = fillGrid f old (i + 1) 0 := by
  funext r c
  unfold fillGrid
  have : ((r < i ∧ c < 64) ∨ (r = i ∧ c < 64)) ↔ ((r < i + 1 ∧ c < 64) ∨ (r = i + 1 ∧ c < 0)) := by
    constructor
    · rintro (h1 | h1)
      · exact Or.inl ⟨by omega, h1.2⟩
      · exact Or.inl ⟨by omega, h1.2⟩
    · rintro (h1 | h1)
      · by_cases hr : r = i
        · exact Or.inr ⟨hr, h1.2⟩
        · exact Or.inl ⟨by omega, h1.2⟩
      · omega
  simp only [this]

theorem fillGrid_zero (f old : GenMap) : fillGrid f old 0 0 = old := by
  funext r c
  simp [fillGrid]

theorem fillGrid_full (f old : GenMap) (r c : Nat) (hr : r < 32) (hc : c < 64) :
    fillGrid f old 32 0 r c = f r c := by
  simp [fillGrid, hr, hc]

theorem nextGrid_set (g old : GenMap) (i j : Nat) :
    (nextGrid g old i j).set i j (newByte g i j) = nextGrid g old i (j + 1) :=
  fillGrid_set (newByte g) old i j

theorem nextGrid_row (g old : GenMap) (i : Nat) :
    nextGrid g old i 64 = nextGrid g old (i + 1) 0 :=
  fillGrid_row (newByte g) old i

theorem nextGrid_zero (g old : GenMap) : nextGrid g old 0 0 = old :=
  fillGrid_zero (newByte g) old

theorem loopState_current (s : ConwaysGame) (g : GenMap) (hg : s.currentGrid = some g)
    (i j : Nat) : (loopState s g i j).currentGrid = some g := by
  unfold loopState ConwaysGame.currentGrid at *
  cases hc : s.currentGenMap <;> simp [hc, ConwaysGame.deref] at hg ⊢ <;> exact hg

theorem calcCell_eq (s : ConwaysGame) (g : GenMap) (hg : s.currentGrid = some g)
    (i j : Nat) (hi : i < 32) (hj : j < 64) :
    calcCell i j (loopState s g i j, changesUpTo g i j) =
      some (loopState s g i (j + 1), changesUpTo g i (j + 1)) := by
  have hcn := checkNeighbors_eq (loopState s g i j) g (loopState_current s g hg i j) i j hi hj
  have hb := changesUpTo_le g i j
  unfold calcCell
  simp only [gameRows, gameColumns, Nat.mod_eq_of_lt (show i < 256 by omega),
    Nat.mod_eq_of_lt (show j < 256 by omega), Nat.reduceMod, hcn, Option.some_bind]
  rw [changesUpTo_succ]
  unfold ConwaysGame.currentGrid at hg
  have hnb : (if lifeRule g i j then 1 else 0) = newByte g i j := rfl
  cases hc : s.currentGenMap
  · simp [hc, ConwaysGame.deref] at hg
  · simp [hc, ConwaysGame.deref] at hg
    subst hg
    simp only [loopState, hc, ConwaysGame.store, ConwaysGame.load, ConwaysGame.deref, gameRows,
      gameColumns, hi, hj, and_self, if_true, Option.some_bind, decide_eq_true_eq, hnb, ne_eq,
      Option.some.injEq, Prod.mk.injEq, ConwaysGame.mk.injEq, true_and, and_true, reduceCtorEq,
      if_false]
    set g := s.genMap_1
    have hset : ∀ old : GenMap, (nextGrid g old i j).set i j (newByte g i j) i j = newByte g i j := by
      intro old; simp [GenMap.set]
    have hmod : (changesUpTo g i j + 1) % 2 ^ 32 = changesUpTo g i j + 1 :=
      Nat.mod_eq_of_lt (by omega)
    refine ⟨nextGrid_set g _ i j, ?_⟩
    rw [hset, hmod]
    unfold changed
    by_cases hd : g i j = newByte g i j <;> simp [hd]
  · simp [hc, ConwaysGame.deref] at hg
    subst hg
    simp only [loopState, hc, ConwaysGame.store, ConwaysGame.load, ConwaysGame.deref, gameRows,
      gameColumns, hi, hj, and_self, if_true, Option.some_bind, decide_eq_true_eq, hnb, ne_eq,
      Option.some.injEq, Prod.mk.injEq, ConwaysGame.mk.injEq, true_and, and_true, reduceCtorEq,
      if_false]
    set g := s.genMap_2
    have hset : ∀ old : GenMap, (nextGrid g old i j).set i j (newByte g i j) i j = newByte g i j := by
      intro old; simp [GenMap.set]
    have hmod : (changesUpTo g i j + 1) % 2 ^ 32 = changesUpTo g i j + 1 :=
      Nat.mod_eq_of_lt (by omega)
    refine ⟨nextGrid_set g _ i j, ?_⟩
    rw [hset, hmod]
    unfold changed
    by_cases hd : g i j = newByte g i j <;> simp [hd]

theorem loopState_row (s : ConwaysGame) (g : GenMap) (i : Nat) :
    loopState s g i 64 = loopState s g (i + 1) 0 := by
  unfold loopState
  simp only [nextGrid_row]

theorem loopState_zero (s : ConwaysGame) (g : GenMap) :
    loopState s g 0 0 =
      { s with nextGenMap := if s.currentGenMap = .map1 then .map2 else .map1 } := by
  unfold loopState
  simp only [nextGrid_zero]
  split_ifs <;> rfl

theorem calcRow_eq (s : ConwaysGame) (g : GenMap) (hg : s.currentGrid = some g)
    (i : Nat) (hi : i < 32) :
    forLoopM gameColumns (fun j st => calcCell i j st) (loopState s g i 0, changesUpTo g i 0) =
      some (loopState s g (i + 1) 0, changesUpTo g (i + 1) 0) := by
  have h := forLoopM_eq (fun j => (loopState s g i j, changesUpTo g i j))
    (fun j st => calcCell i j st) 64 (fun j hj => calcCell_eq s g hg i j hi hj)
  simp only [loopState_row, changesUpTo_row] at h
  exact h

theorem calcNextGen_eq (s : ConwaysGame) (g : GenMap) (hg : s.currentGrid = some g) :
    calcNextGen s = some (changesUpTo g 32 0, advanced s g) := by
  have h := forLoopM_eq (fun i => (loopState s g i 0, changesUpTo g i 0))
    (fun i st => forLoopM gameColumns (fun j st => calcCell i j st) st) 32
    (fun i hi => calcRow_eq s g hg i hi)
  unfold calcNextGen
  simp only [← loopState_zero s g]
  have h0 : changesUpTo g 0 0 = 0 := by simp [changesUpTo]
  simp only [h0] at h
  simp only [gameRows, h, Option.some_bind, advanced]

/-! ## The loops of `initSeed` -/

theorem forLoop_eq {σ : Type} (F : Nat → σ) (body : Nat → σ → σ) (n : Nat)
    (hstep : ∀ k, k < n → body k (F k) = F (k + 1)) :
    forLoop n body (F 0) = F n := by
  induction n with
  | zero => rfl
  | succ k ih =>
    simp only [forLoop]
    rw [ih (fun j hj => hstep j (Nat.lt_succ_of_lt hj)), hstep k (Nat.lt_succ_self k)]

theorem seedCell_eq (draws : Nat → Nat) (s : ConwaysGame) (i j : Nat) :
    seedCell draws i j (seedState draws s i j) = seedState draws s i (j + 1) := by
  unfold seedCell seedState
  simp only [Prod.mk.injEq, ConwaysGame.mk.injEq, true_and, and_true]
  refine ⟨⟨?_, ?_⟩, by omega⟩
  · exact fillGrid_set (seedByte draws) s.genMap_1 i j
  · exact fillGrid_set (fun _ _ => 0) s.genMap_2 i j

theorem seedState_row (draws : Nat → Nat) (s : ConwaysGame) (i : Nat) :
    seedState draws s i 64 = seedState draws s (i + 1) 0 := by
  unfold seedState
  simp only [fillGrid_row, Prod.mk.injEq, true_and]
  omega

theorem seedLoops_eq (draws : Nat → Nat) (s : ConwaysGame) :
    seedLoops draws s = (seedState draws s 32 0).1 := by
  have hrow : ∀ i, i < 32 →
      forLoop gameColumns (fun j st => seedCell draws i j st) (seedState draws s i 0) =
        seedState draws s (i + 1) 0 := by
    intro i _
    have h := forLoop_eq (fun j => seedState draws s i j) (fun j st => seedCell draws i j st) 64
      (fun j _ => seedCell_eq draws s i j)
    simp only [seedState_row] at h
    exact h
  have h := forLoop_eq (fun i => seedState draws s i 0)
    (fun i st => forLoop gameColumns (fun j st => seedCell draws i j st) st) 32 hrow
  have h0 : seedState draws s 0 0 = (s, 0) := by
    simp [seedState, fillGrid_zero]
  unfold seedLoops
  rw [← h0]
  simp only [gameRows, h]

theorem seedLoops_genMap_1 (draws : Nat → Nat) (s : ConwaysGame) (r c : Nat)
    (hr : r < 32) (hc : c < 64) :
    (seedLoops draws s).genMap_1 r c = seedByte draws r c := by
  rw [seedLoops_eq]
  exact fillGrid_full _ _ r c hr hc

theorem seedLoops_genMap_2 (draws : Nat → Nat) (s : ConwaysGame) (r c : Nat)
    (hr : r < 32) (hc : c < 64) :
    (seedLoops draws s).genMap_2 r c = 0 := by
  rw [seedLoops_eq]
  exact fillGrid_full (fun _ _ => 0) s.genMap_2 r c hr hc

theorem seedByte_le (draws : Nat → Nat) (r c : Nat) : seedByte draws r c ≤ 1 := by
  unfold seedByte; split_ifs <;> omega

theorem set_le_one (g : GenMap) (y x v r c : Nat) (hv : v ≤ 1) (hg : g r c ≤ 1) :
    g.set y x v r c ≤ 1 := by
  unfold GenMap.set; split_ifs <;> assumption

theorem initSeed_currentGenMap (s : ConwaysGame) (rand : Bool) (draws : Nat → Nat) :
    (initSeed s rand draws).currentGenMap = .map1 := rfl

theorem initSeed_genMap_2 (s : ConwaysGame) (rand : Bool) (draws : Nat → Nat) (r c : Nat)
    (hr : r < 32) (hc : c < 64) :
    (initSeed s rand draws).genMap_2 r c = 0 := by
  cases rand
  · simp only [initSeed, loadPattern, Bool.false_eq_true, if_false]
    exact seedLoops_genMap_2 draws s r c hr hc
  · simp only [initSeed, if_true]
    exact seedLoops_genMap_2 draws s r c hr hc

theorem initSeed_random_genMap_1 (s : ConwaysGame) (draws : Nat → Nat) (r c : Nat)
    (hr : r < 32) (hc : c < 64) :
    (initSeed s true draws).genMap_1 r c = seedByte draws r c := by
  simp only [initSeed, if_true]
  exact seedLoops_genMap_1 draws s r c hr hc

theorem initSeed_genMap_1_le (s : ConwaysGame) (rand : Bool) (draws : Nat → Nat) (r c : Nat)
    (hr : r < 32) (hc : c < 64) :
    (initSeed s rand draws).genMap_1 r c ≤ 1 := by
  have hb : (seedLoops draws s).genMap_1 r c ≤ 1 := by
    rw [seedLoops_genMap_1 draws s r c hr hc]
    exact seedByte_le draws r c
  cases rand
  · simp only [initSeed, loadPattern, Bool.false_eq_true, if_false]
    repeat first
      | exact hb
      | apply set_le_one _ _ _ _ _ _ (le_refl 1)
  · simp only [initSeed, if_true]
    exact hb

/-! ## What one `calcNextGen` does -/

theorem current_cases (s : ConwaysGame) (g : GenMap) (hg : s.currentGrid = some g) :
    (s.currentGenMap = .map1 ∧ g = s.genMap_1) ∨ (s.currentGenMap = .map2 ∧ g = s.genMap_2) := by
  unfold ConwaysGame.currentGrid at hg
  cases hc : s.currentGenMap <;> simp [hc, ConwaysGame.deref] at hg
  · exact Or.inl ⟨rfl, hg.symm⟩
  · exact Or.inr ⟨rfl, hg.symm⟩

theorem advanced_map1 (s : ConwaysGame) (g : GenMap) (hc : s.currentGenMap = .map1) :
    advanced s g = { s with genMap_2 := nextGrid g s.genMap_2 32 0,
                            currentGenMap := .map2, nextGenMap := .map2 } := by
  simp [advanced, loopState, hc]

theorem advanced_map2 (s : ConwaysGame) (g : GenMap) (hc : s.currentGenMap = .map2) :
    advanced s g = { s with genMap_1 := nextGrid g s.genMap_1 32 0,
                            currentGenMap := .map1, nextGenMap := .map1 } := by
  simp [advanced, loopState, hc]

theorem nextGrid_full (g old : GenMap) (r c : Nat) (hr : r < 32) (hc : c < 64) :
    nextGrid g old 32 0 r c = newByte g r c :=
  fillGrid_full (newByte g) old r c hr hc

theorem newByte_le (g : GenMap) (r c : Nat) : newByte g r c ≤ 1 := by
  unfold newByte; split_ifs <;> omega

theorem newByte_ne_zero (g : GenMap) (r c : Nat) : newByte g r c ≠ 0 ↔ lifeRule g r c := by
  unfold newByte; split_ifs with h <;> simp [h]

theorem changesUpTo_full (g : GenMap) :
    changesUpTo g 32 0 = ∑ r in Finset.range 32, ∑ c in Finset.range 64, changed g r c := by
  simp [changesUpTo]

/-- One `calcNextGen` on a state whose current generation is `g`: the call
returns, the new current generation holds the byte of the rule in every
cell of the grid, and the returned value counts the bytes that changed. -/
theorem calcNextGen_spec (s : ConwaysGame) (g : GenMap) (hg : s.currentGrid = some g) :
    ∃ s' g', calcNextGen s = some (changesUpTo g 32 0, s') ∧ s'.currentGrid = some g' ∧
      ∀ r c, r < 32 → c < 64 → g' r c = newByte g r c := by
  refine ⟨advanced s g, ?_⟩
  rcases current_cases s g hg with ⟨hc, _⟩ | ⟨hc, _⟩
  · refine ⟨nextGrid g s.genMap_2 32 0, calcNextGen_eq s g hg, ?_, ?_⟩
    · rw [advanced_map1 s g hc]; rfl
    · exact fun r c hr hc => nextGrid_full g _ r c hr hc
  · refine ⟨nextGrid g s.genMap_1 32 0, calcNextGen_eq s g hg, ?_, ?_⟩
    · rw [advanced_map2 s g hc]; rfl
    · exact fun r c hr hc => nextGrid_full g _ r c hr hc

/-! ## Seeded states -/

/-- In a seeded state the current pointer is set and every byte of both
arrays is 0 or 1. -/
theorem seeded_inv (s : ConwaysGame) (hs : Seeded s) :
    (s.currentGenMap = .map1 ∨ s.currentGenMap = .map2) ∧
      ∀ r c, r < 32 → c < 64 → s.genMap_1 r c ≤ 1 ∧ s.genMap_2 r c ≤ 1 := by
  induction hs with
  | seed s rand draws =>
    refine ⟨Or.inl (initSeed_currentGenMap s rand draws), fun r c hr hc => ⟨?_, ?_⟩⟩
    · exact initSeed_genMap_1_le s rand draws r c hr hc
    · rw [initSeed_genMap_2 s rand draws r c hr hc]; omega
  | advance s s' n _ hstep ih =>
    obtain ⟨hcur, hbytes⟩ := ih
    rcases hcur with hc | hc
    · have hg : s.currentGrid = some s.genMap_1 := by
        simp [ConwaysGame.currentGrid, hc, ConwaysGame.deref]
      rw [calcNextGen_eq s _ hg, advanced_map1 s _ hc] at hstep
      simp only [Option.some.injEq, Prod.mk.injEq] at hstep
      obtain ⟨_, rfl⟩ := hstep
      refine ⟨Or.inr rfl, fun r c hr hc' => ⟨(hbytes r c hr hc').1, ?_⟩⟩
      simp only [nextGrid_full _ _ r c hr hc']
      exact newByte_le _ r c
    · have hg : s.currentGrid = some s.genMap_2 := by
        simp [ConwaysGame.currentGrid, hc, ConwaysGame.deref]
      rw [calcNextGen_eq s _ hg, advanced_map2 s _ hc] at hstep
      simp only [Option.some.injEq, Prod.mk.injEq] at hstep
      obtain ⟨_, rfl⟩ := hstep
      refine ⟨Or.inl rfl, fun r c hr hc' => ⟨?_, (hbytes r c hr hc').2⟩⟩
      simp only [nextGrid_full _ _ r c hr hc']
      exact newByte_le _ r c

/-- A seeded state has a current generation, all of whose bytes are 0 or 1. -/
theorem seeded_current (s : ConwaysGame) (hs : Seeded s) :
    ∃ g, s.currentGrid = some g ∧ ∀ r c, r < 32 → c < 64 → g r c ≤ 1 := by
  obtain ⟨hcur, hbytes⟩ := seeded_inv s hs
  rcases hcur with hc | hc
  · exact ⟨s.genMap_1, by simp [ConwaysGame.currentGrid, hc, ConwaysGame.deref],
      fun r c hr hc' => (hbytes r c hr hc').1⟩
  · exact ⟨s.genMap_2, by simp [ConwaysGame.currentGrid, hc, ConwaysGame.deref],
      fun r c hr hc' => (hbytes r c hr hc').2⟩

/-! ## The generation step -/

/-- C1: for every seeded state and every cell `(r, c)` of the grid, after
one `calcNextGen` the cell is alive in the current grid exactly when it was
alive with 2 or 3 alive in-bounds neighbours, or dead with exactly 3, the
neighbours being counted in the current grid of before the call. -/
theorem calcNextGen_applies_rule (s : ConwaysGame) (hs : Seeded s) (r c : Nat)
    (hr : r < 32) (hc : c < 64) :
    ∃ g n s' g', s.currentGrid = some g ∧ calcNextGen s = some (n, s') ∧
      s'.currentGrid = some g' ∧
      (g' r c ≠ 0 ↔
        (g r c ≠ 0 ∧ (aliveNeighbours g r c = 2 ∨ aliveNeighbours g r c = 3)) ∨
        (g r c = 0 ∧ aliveNeighbours g r c = 3)) := by
  obtain ⟨g, hg, _⟩ := seeded_current s hs
  obtain ⟨s', g', hstep, hg', hcells⟩ := calcNextGen_spec s g hg
  refine ⟨g, _, s', g', hg, hstep, hg', ?_⟩
  rw [hcells r c hr hc, newByte_ne_zero]
  rfl

theorem calcNextGen_applies_rule_witness :
    Seeded (initSeed (freshGame 0 7) true thirds) ∧ 5 < 32 ∧ 9 < 64 ∧
    ∃ g n s' g', (initSeed (freshGame 0 7) true thirds).currentGrid = some g ∧
      calcNextGen (initSeed (freshGame 0 7) true thirds) = some (n, s') ∧
      s'.currentGrid = some g' ∧
      (g' 5 9 ≠ 0 ↔
        (g 5 9 ≠ 0 ∧ (aliveNeighbours g 5 9 = 2 ∨ aliveNeighbours g 5 9 = 3)) ∨
        (g 5 9 = 0 ∧ aliveNeighbours g 5 9 = 3)) :=
  ⟨Seeded.seed _ _ _, by decide, by decide,
    calcNextGen_applies_rule _ (Seeded.seed _ _ _) 5 9 (by decide) (by decide)⟩

theorem changed_iff (g g' : GenMap) (r c : Nat) (hg : g r c ≤ 1) (hg' : g' r c = newByte g r c) :
    changed g r c = if ¬(g r c ≠ 0 ↔ g' r c ≠ 0) then 1 else 0 := by
  unfold changed
  have hn := newByte_le g r c
  rw [hg']
  have : g r c ≠ newByte g r c ↔ ¬(g r c ≠ 0 ↔ newByte g r c ≠ 0) := by
    constructor
    · intro h hiff
      by_cases h0 : g r c = 0
      · have : newByte g r c = 0 := by
          by_contra hne; exact (hiff.mpr hne) h0
        omega
      · have : newByte g r c ≠ 0 := hiff.mp h0
        omega
    · intro h heq
      apply h
      rw [heq]
  simp only [this]

/-- C2: for every seeded state, the value `calcNextGen` returns is the
number of positions of the 32x64 grid at which the current grid of before
the call and the current grid of after the call differ in alive/dead
state. -/
theorem calcNextGen_counts_changes (s : ConwaysGame) (hs : Seeded s) :
    ∃ g n s' g', s.currentGrid = some g ∧ calcNextGen s = some (n, s') ∧
      s'.currentGrid = some g' ∧
      n = ((Finset.range 32 ×ˢ Finset.range 64).filter
            (fun p => ¬(g p.1 p.2 ≠ 0 ↔ g' p.1 p.2 ≠ 0))).card := by
  obtain ⟨g, hg, hbytes⟩ := seeded_current s hs
  obtain ⟨s', g', hstep, hg', hcells⟩ := calcNextGen_spec s g hg
  refine ⟨g, _, s', g', hg, hstep, hg', ?_⟩
  rw [changesUpTo_full, Finset.card_filter, Finset.sum_product]
  refine Finset.sum_congr rfl (fun r hr => Finset.sum_congr rfl (fun c hc => ?_))
  rw [Finset.mem_range] at hr hc
  exact changed_iff g g' r c (hbytes r c hr hc) (hcells r c hr hc)

theorem calcNextGen_counts_changes_witness :
    Seeded (initSeed (freshGame 0 7) false thirds) ∧
    ∃ g n s' g', (initSeed (freshGame 0 7) false thirds).currentGrid = some g ∧
      calcNextGen (initSeed (freshGame 0 7) false thirds) = some (n, s') ∧
      s'.currentGrid = some g' ∧
      n = ((Finset.range 32 ×ˢ Finset.range 64).filter
            (fun p => ¬(g p.1 p.2 ≠ 0 ↔ g' p.1 p.2 ≠ 0))).card :=
  ⟨Seeded.seed _ _ _, calcNextGen_counts_changes _ (Seeded.seed _ _ _)⟩

/-- C3: for every seeded state, `calcNextGen` toggles which buffer is
current (from `genMap_1` to `genMap_2` and from `genMap_2` to `genMap_1`),
so after two consecutive calls the buffer that was current is current
again. -/
theorem calcNextGen_toggles_current (s : ConwaysGame) (hs : Seeded s) :
    ∃ n s' m t, calcNextGen s = some (n, s') ∧ calcNextGen s' = some (m, t) ∧
      (s.currentGenMap = .map1 ∨ s.currentGenMap = .map2) ∧
      (s.currentGenMap = .map1 → s'.currentGenMap = .map2) ∧
      (s.currentGenMap = .map2 → s'.currentGenMap = .map1) ∧
      t.currentGenMap = s.currentGenMap := by
  have toggle : ∀ t : ConwaysGame, Seeded t → ∃ n t', calcNextGen t = some (n, t') ∧
      (t.currentGenMap = .map1 ∨ t.currentGenMap = .map2) ∧
      (t.currentGenMap = .map1 → t'.currentGenMap = .map2) ∧
      (t.currentGenMap = .map2 → t'.currentGenMap = .map1) := by
    intro t ht
    obtain ⟨g, hg, _⟩ := seeded_current t ht
    refine ⟨_, advanced t g, calcNextGen_eq t g hg, (seeded_inv t ht).1, ?_, ?_⟩
    · intro hc; rw [advanced_map1 t g hc]
    · intro hc; rw [advanced_map2 t g hc]
  obtain ⟨n, s', hstep, hcur, h12, h21⟩ := toggle s hs
  obtain ⟨m, t, hstep', _, h12', h21'⟩ := toggle s' (Seeded.advance s s' n hs hstep)
  refine ⟨n, s', m, t, hstep, hstep', hcur, h12, h21, ?_⟩
  rcases hcur with hc | hc
  · rw [hc]; exact h21' (h12 hc)
  · rw [hc]; exact h12' (h21 hc)

theorem calcNextGen_toggles_current_witness :
    Seeded (initSeed (freshGame 0 7) true thirds) ∧
    ∃ n s' m t, calcNextGen (initSeed (freshGame 0 7) true thirds) = some (n, s') ∧
      calcNextGen s' = some (m, t) ∧
      ((initSeed (freshGame 0 7) true thirds).currentGenMap = .map1 ∨
        (initSeed (freshGame 0 7) true thirds).currentGenMap = .map2) ∧
      ((initSeed (freshGame 0 7) true thirds).currentGenMap = .map1 →
        s'.currentGenMap = .map2) ∧
      ((initSeed (freshGame 0 7) true thirds).currentGenMap = .map2 →
        s'.currentGenMap = .map1) ∧
      t.currentGenMap = (initSeed (freshGame 0 7) true thirds).currentGenMap :=
  ⟨Seeded.seed _ _ _, calcNextGen_toggles_current _ (Seeded.seed _ _ _)⟩

theorem liveAt_iff (g : GenMap) (a b : Int) :
    liveAt g a b = true ↔ 0 ≤ a ∧ a < 32 ∧ 0 ≤ b ∧ b < 64 ∧ g a.toNat b.toNat ≠ 0 := by
  simp [liveAt, and_assoc]

theorem liveAt_congr (g1 g2 : GenMap)
    (h : ∀ r c, r < 32 → c < 64 → (g1 r c ≠ 0 ↔ g2 r c ≠ 0)) (a b : Int) :
    liveAt g1 a b = liveAt g2 a b := by
  rw [Bool.eq_iff_iff, liveAt_iff, liveAt_iff]
  constructor
  · rintro ⟨h1, h2, h3, h4, h5⟩
    exact ⟨h1, h2, h3, h4, (h a.toNat b.toNat (by omega) (by omega)).mp h5⟩
  · rintro ⟨h1, h2, h3, h4, h5⟩
    exact ⟨h1, h2, h3, h4, (h a.toNat b.toNat (by omega) (by omega)).mpr h5⟩

theorem aliveNeighbours_congr (g1 g2 : GenMap)
    (h : ∀ r c, r < 32 → c < 64 → (g1 r c ≠ 0 ↔ g2 r c ≠ 0)) (r c : Nat) :
    aliveNeighbours g1 r c = aliveNeighbours g2 r c := by
  unfold aliveNeighbours
  simp only [liveAt_congr g1 g2 h]

theorem newByte_congr (g1 g2 : GenMap)
    (h : ∀ r c, r < 32 → c < 64 → (g1 r c ≠ 0 ↔ g2 r c ≠ 0)) (r c : Nat)
    (hr : r < 32) (hc : c < 64) :
    newByte g1 r c = newByte g2 r c := by
  have hn := aliveNeighbours_congr g1 g2 h r c
  have hcell := h r c hr hc
  have hcell0 : g1 r c = 0 ↔ g2 r c = 0 := by
    constructor
    · intro h0; by_contra hne; exact (hcell.mpr hne) h0
    · intro h0; by_contra hne; exact (hcell.mp hne) h0
  unfold newByte lifeRule
  simp only [hn, hcell, hcell0]

/-- C4: `calcNextGen` is a function of the current grid alone: two states
whose current grids agree cell by cell, whatever their scratch buffers,
current designation and colour, have after the call current grids that
agree on every cell of the grid, and the two calls return the same
count. -/
theorem calcNextGen_deterministic (s1 s2 : ConwaysGame) (g1 g2 : GenMap)
    (hg1 : s1.currentGrid = some g1) (hg2 : s2.currentGrid = some g2)
    (hagree : ∀ r c, r < 32 → c < 64 → g1 r c = g2 r c) :
    ∃ n1 s1' g1' n2 s2' g2', calcNextGen s1 = some (n1, s1') ∧ s1'.currentGrid = some g1' ∧
      calcNextGen s2 = some (n2, s2') ∧ s2'.currentGrid = some g2' ∧
      (∀ r c, r < 32 → c < 64 → g1' r c = g2' r c) ∧ n1 = n2 := by
  obtain ⟨s1', g1', hstep1, hg1', hcells1⟩ := calcNextGen_spec s1 g1 hg1
  obtain ⟨s2', g2', hstep2, hg2', hcells2⟩ := calcNextGen_spec s2 g2 hg2
  have halive : ∀ r c, r < 32 → c < 64 → (g1 r c ≠ 0 ↔ g2 r c ≠ 0) := by
    intro r c hr hc; rw [hagree r c hr hc]
  refine ⟨_, s1', g1', _, s2', g2', hstep1, hg1', hstep2, hg2', ?_, ?_⟩
  · intro r c hr hc
    rw [hcells1 r c hr hc, hcells2 r c hr hc]
    exact newByte_congr g1 g2 halive r c hr hc
  · rw [changesUpTo_full, changesUpTo_full]
    refine Finset.sum_congr rfl (fun r hr => Finset.sum_congr rfl (fun c hc => ?_))
    rw [Finset.mem_range] at hr hc
    unfold changed
    rw [hagree r c hr hc, newByte_congr g1 g2 halive r c hr hc]

theorem calcNextGen_deterministic_witness :
    gliderInOne.currentGrid = some glider ∧ gliderInTwo.currentGrid = some glider ∧
    (∀ r c, r < 32 → c < 64 → glider r c = glider r c) ∧
    ∃ n1 s1' g1' n2 s2' g2', calcNextGen gliderInOne = some (n1, s1') ∧
      s1'.currentGrid = some g1' ∧
      calcNextGen gliderInTwo = some (n2, s2') ∧ s2'.currentGrid = some g2' ∧
      (∀ r c, r < 32 → c < 64 → g1' r c = g2' r c) ∧ n1 = n2 :=
  ⟨rfl, rfl, fun _ _ _ _ => rfl,
    calcNextGen_deterministic gliderInOne gliderInTwo glider glider rfl rfl
      (fun _ _ _ _ => rfl)⟩

/-- C5: for every grid and every cell of the grid with exactly 3 alive
in-bounds neighbours in the current grid, the cell is alive in the current
grid after `calcNextGen`, whether it was alive or dead before. -/
theorem three_neighbours_alive (s : ConwaysGame) (g : GenMap) (hg : s.currentGrid = some g)
    (r c : Nat) (hr : r < 32) (hc : c < 64) (h3 : aliveNeighbours g r c = 3) :
    ∃ n s' g', calcNextGen s = some (n, s') ∧ s'.currentGrid = some g' ∧ g' r c ≠ 0 := by
  obtain ⟨s', g', hstep, hg', hcells⟩ := calcNextGen_spec s g hg
  refine ⟨_, s', g', hstep, hg', ?_⟩
  rw [hcells r c hr hc, newByte_ne_zero]
  unfold lifeRule
  by_cases h0 : g r c = 0
  · exact Or.inr ⟨h0, h3⟩
  · exact Or.inl ⟨h0, Or.inr h3⟩

theorem three_neighbours_alive_witness :
    gliderInOne.currentGrid = some glider ∧ 1 < 32 ∧ 1 < 64 ∧ aliveNeighbours glider 2 1 = 3 ∧
    aliveNeighbours glider 3 1 = 3 ∧ glider 2 1 ≠ 0 ∧ glider 3 1 = 0 ∧
    (∃ n s' g', calcNextGen gliderInOne = some (n, s') ∧ s'.currentGrid = some g' ∧
      g' 2 1 ≠ 0) ∧
    (∃ n s' g', calcNextGen gliderInOne = some (n, s') ∧ s'.currentGrid = some g' ∧
      g' 3 1 ≠ 0) :=
  ⟨rfl, by decide, by decide, by decide, by decide, by decide, by decide,
    three_neighbours_alive gliderInOne glider rfl 2 1 (by decide) (by decide) (by decide),
    three_neighbours_alive gliderInOne glider rfl 3 1 (by decide) (by decide) (by decide)⟩

/-- C6: for every grid and every cell of the grid that is alive in the
current grid: with 0 or 1 alive in-bounds neighbours, or with 4 or more, the
cell is dead in the current grid after `calcNextGen`. -/
theorem lonely_or_crowded_dies (s : ConwaysGame) (g : GenMap) (hg : s.currentGrid = some g)
    (r c : Nat) (hr : r < 32) (hc : c < 64) (halive : g r c ≠ 0)
    (hn : aliveNeighbours g r c ≤ 1 ∨ 4 ≤ aliveNeighbours g r c) :
    ∃ n s' g', calcNextGen s = some (n, s') ∧ s'.currentGrid = some g' ∧ g' r c = 0 := by
  obtain ⟨s', g', hstep, hg', hcells⟩ := calcNextGen_spec s g hg
  refine ⟨_, s', g', hstep, hg', ?_⟩
  by_contra hne
  rw [hcells r c hr hc] at hne
  have hrule := (newByte_ne_zero g r c).mp hne
  unfold lifeRule at hrule
  rcases hrule with ⟨_, h23⟩ | ⟨h0, _⟩
  · omega
  · exact halive h0

theorem lonely_or_crowded_dies_witness :
    gliderInTwo.currentGrid = some glider ∧ glider 0 1 ≠ 0 ∧ aliveNeighbours glider 0 1 = 1 ∧
    allAliveInOne.currentGrid = some (fun _ _ => 1) ∧ aliveNeighbours (fun _ _ => 1) 5 5 = 8 ∧
    (∃ n s' g', calcNextGen gliderInTwo = some (n, s') ∧ s'.currentGrid = some g' ∧
      g' 0 1 = 0) ∧
    (∃ n s' g', calcNextGen allAliveInOne = some (n, s') ∧ s'.currentGrid = some g' ∧
      g' 5 5 = 0) :=
  ⟨rfl, by decide, by decide, rfl, by decide,
    lonely_or_crowded_dies gliderInTwo glider rfl 0 1 (by decide) (by decide) (by decide)
      (by decide),
    lonely_or_crowded_dies allAliveInOne (fun _ _ => 1) rfl 5 5 (by decide) (by decide)
      (by decide) (by decide)⟩

theorem aliveNeighbours_corner (g : GenMap) :
    aliveNeighbours g 0 0 =
      (if g 0 1 ≠ 0 then 1 else 0) + (if g 1 0 ≠ 0 then 1 else 0) +
        (if g 1 1 ≠ 0 then 1 else 0) := by
  simp [aliveNeighbours, neighbourOffsets, liveAt, List.countP_cons]
  ac_rfl

/-- C7: edges are hard boundaries. For every two grids whose cells (0,0),
(0,1), (1,0) and (1,1) agree in alive/dead state, however they differ
elsewhere (row 31 and column 63 included), the corner (0,0) has the same
state after `calcNextGen`; and a live (0,0) whose three in-bounds
neighbours are dead is dead after the call, whatever row 31 and column 63
hold. -/
theorem corner_ignores_far_edges (s1 s2 : ConwaysGame) (g1 g2 : GenMap)
    (hg1 : s1.currentGrid = some g1) (hg2 : s2.currentGrid = some g2)
    (h00 : g1 0 0 ≠ 0 ↔ g2 0 0 ≠ 0) (h01 : g1 0 1 ≠ 0 ↔ g2 0 1 ≠ 0)
    (h10 : g1 1 0 ≠ 0 ↔ g2 1 0 ≠ 0) (h11 : g1 1 1 ≠ 0 ↔ g2 1 1 ≠ 0) :
    ∃ n1 s1' g1' n2 s2' g2', calcNextGen s1 = some (n1, s1') ∧ s1'.currentGrid = some g1' ∧
      calcNextGen s2 = some (n2, s2') ∧ s2'.currentGrid = some g2' ∧
      (g1' 0 0 ≠ 0 ↔ g2' 0 0 ≠ 0) ∧
      (g1 0 0 ≠ 0 → g1 0 1 = 0 → g1 1 0 = 0 → g1 1 1 = 0 → g1' 0 0 = 0) := by
  obtain ⟨s1', g1', hstep1, hg1', hcells1⟩ := calcNextGen_spec s1 g1 hg1
  obtain ⟨s2', g2', hstep2, hg2', hcells2⟩ := calcNextGen_spec s2 g2 hg2
  refine ⟨_, s1', g1', _, s2', g2', hstep1, hg1', hstep2, hg2', ?_, ?_⟩
  · rw [hcells1 0 0 (by decide) (by decide), hcells2 0 0 (by decide) (by decide),
      newByte_ne_zero, newByte_ne_zero]
    have hn : aliveNeighbours g1 0 0 = aliveNeighbours g2 0 0 := by
      rw [aliveNeighbours_corner, aliveNeighbours_corner]
      simp only [h01, h10, h11]
    have h00' : g1 0 0 = 0 ↔ g2 0 0 = 0 := by
      constructor
      · intro h0; by_contra hne; exact (h00.mpr hne) h0
      · intro h0; by_contra hne; exact (h00.mp hne) h0
    unfold lifeRule
    rw [hn, h00, h00']
  · intro _ h01' h10' h11'
    by_contra hne
    rw [hcells1 0 0 (by decide) (by decide)] at hne
    have hrule := (newByte_ne_zero g1 0 0).mp hne
    have hn : aliveNeighbours g1 0 0 = 0 := by
      rw [aliveNeighbours_corner]; simp [h01', h10', h11']
    unfold lifeRule at hrule
    omega

theorem corner_ignores_far_edges_witness :
    (gameOn cornerAndFarEdges glider).currentGrid = some cornerAndFarEdges ∧
    (gameOn cornerOnly glider).currentGrid = some cornerOnly ∧
    (∀ c, c < 64 → cornerAndFarEdges 31 c ≠ 0) ∧ (∀ r, r < 32 → cornerAndFarEdges r 63 ≠ 0) ∧
    cornerAndFarEdges 0 0 ≠ 0 ∧ cornerAndFarEdges 0 1 = 0 ∧ cornerAndFarEdges 1 0 = 0 ∧
    cornerAndFarEdges 1 1 = 0 ∧
    ∃ n1 s1' g1' n2 s2' g2',
      calcNextGen (gameOn cornerAndFarEdges glider) = some (n1, s1') ∧
      s1'.currentGrid = some g1' ∧
      calcNextGen (gameOn cornerOnly glider) = some (n2, s2') ∧ s2'.currentGrid = some g2' ∧
      (g1' 0 0 ≠ 0 ↔ g2' 0 0 ≠ 0) ∧
      (cornerAndFarEdges 0 0 ≠ 0 → cornerAndFarEdges 0 1 = 0 → cornerAndFarEdges 1 0 = 0 →
        cornerAndFarEdges 1 1 = 0 → g1' 0 0 = 0) :=
  ⟨rfl, rfl, by decide, by decide, by decide, by decide, by decide, by decide,
    corner_ignores_far_edges (gameOn cornerAndFarEdges glider) (gameOn cornerOnly glider)
      cornerAndFarEdges cornerOnly rfl rfl (by decide) (by decide) (by decide) (by decide)⟩

/-- C8: the all-dead grid is a fixed point: when every cell of the current
grid is dead, `calcNextGen` returns 0 and every cell of the new current
grid is dead, whatever the scratch buffer held. -/
theorem all_dead_fixed_point (s : ConwaysGame) (g : GenMap) (hg : s.currentGrid = some g)
    (hdead : ∀ r c, r < 32 → c < 64 → g r c = 0) :
    ∃ s' g', calcNextGen s = some (0, s') ∧ s'.currentGrid = some g' ∧
      ∀ r c, r < 32 → c < 64 → g' r c = 0 := by
  obtain ⟨s', g', hstep, hg', hcells⟩ := calcNextGen_spec s g hg
  have hzero : ∀ r c, r < 32 → c < 64 → (g r c ≠ 0 ↔ (fun _ _ => 0 : GenMap) r c ≠ 0) := by
    intro r c hr hc; simp [hdead r c hr hc]
  have hnew : ∀ r c, r < 32 → c < 64 → newByte g r c = 0 := by
    intro r c hr hc
    rw [newByte_congr g (fun _ _ => 0) hzero r c hr hc]
    simp [newByte, lifeRule, aliveNeighbours, neighbourOffsets, liveAt]
  have hcount : changesUpTo g 32 0 = 0 := by
    rw [changesUpTo_full]
    refine Finset.sum_eq_zero (fun r hr => Finset.sum_eq_zero (fun c hc => ?_))
    rw [Finset.mem_range] at hr hc
    simp [changed, hdead r c hr hc, hnew r c hr hc]
  rw [hcount] at hstep
  exact ⟨s', g', hstep, hg', fun r c hr hc => by rw [hcells r c hr hc, hnew r c hr hc]⟩

theorem all_dead_fixed_point_witness :
    (gameOn (fun _ _ => 0) glider).currentGrid = some (fun _ _ => 0) ∧
    (∀ r c, r < 32 → c < 64 → (fun _ _ => 0 : GenMap) r c = 0) ∧
    ∃ s' g', calcNextGen (gameOn (fun _ _ => 0) glider) = some (0, s') ∧
      s'.currentGrid = some g' ∧ ∀ r c, r < 32 → c < 64 → g' r c = 0 :=
  ⟨rfl, fun _ _ _ _ => rfl,
    all_dead_fixed_point (gameOn (fun _ _ => 0) glider) (fun _ _ => 0) rfl
      (fun _ _ _ _ => rfl)⟩

theorem liveAt_single (g : GenMap) (r c : Nat) (hr : r < 32) (hc : c < 64)
    (hone : ∀ r' c', r' < 32 → c' < 64 → (g r' c' ≠ 0 ↔ r' = r ∧ c' = c)) (a b : Int) :
    liveAt g a b = true ↔ a = (r : Int) ∧ b = (c : Int) := by
  rw [liveAt_iff]
  constructor
  · rintro ⟨h1, h2, h3, h4, h5⟩
    have := (hone a.toNat b.toNat (by omega) (by omega)).mp h5
    omega
  · rintro ⟨rfl, rfl⟩
    refine ⟨by omega, by omega, by omega, by omega, ?_⟩
    simp only [Int.toNat_ofNat]
    exact (hone r c hr hc).mpr ⟨rfl, rfl⟩

theorem point_cases (x y : Int) :
    (¬(x + -1 = y) ∧ ¬(x + 0 = y) ∧ ¬(x + 1 = y)) ∨
    (¬(x + -1 = y) ∧ ¬(x + 0 = y) ∧ x + 1 = y) ∨
    (¬(x + -1 = y) ∧ x + 0 = y ∧ ¬(x + 1 = y)) ∨
    (x + -1 = y ∧ ¬(x + 0 = y) ∧ ¬(x + 1 = y)) := by
  omega

theorem aliveNeighbours_single (g : GenMap) (r c : Nat) (hr : r < 32) (hc : c < 64)
    (hone : ∀ r' c', r' < 32 → c' < 64 → (g r' c' ≠ 0 ↔ r' = r ∧ c' = c)) (r' c' : Nat) :
    aliveNeighbours g r' c' ≤ 1 ∧ (r' = r → c' = c → aliveNeighbours g r' c' = 0) := by
  have hrow : (r' = r ↔ (r' : Int) + 0 = r) := by omega
  have hcol : (c' = c ↔ (c' : Int) + 0 = c) := by omega
  simp only [aliveNeighbours, neighbourOffsets, List.countP_cons, List.countP_nil,
    liveAt_single g r c hr hc hone, hrow, hcol]
  rcases point_cases r' r with ⟨h1, h2, h3⟩ | ⟨h1, h2, h3⟩ | ⟨h1, h2, h3⟩ | ⟨h1, h2, h3⟩ <;>
  rcases point_cases c' c with ⟨h4, h5, h6⟩ | ⟨h4, h5, h6⟩ | ⟨h4, h5, h6⟩ | ⟨h4, h5, h6⟩ <;>
  simp only [h1, h2, h3, h4, h5, h6, and_self, and_true, and_false, true_and, false_and, if_true,
    if_false, not_true_eq_false, not_false_eq_true, false_implies, true_implies, implies_true]
  all_goals decide

theorem sum_indicator (r c : Nat) (hr : r < 32) (hc : c < 64) :
    ∑ r' in Finset.range 32, ∑ c' in Finset.range 64, (if r' = r ∧ c' = c then 1 else 0) = 1 := by
  have hinner : ∀ r' ∈ Finset.range 32,
      ∑ c' in Finset.range 64, (if r' = r ∧ c' = c then 1 else 0) = if r' = r then 1 else 0 := by
    intro r' _
    by_cases h : r' = r
    · simp [h, hc]
    · simp [h]
  rw [Finset.sum_congr rfl hinner]
  simp [hr]

/-- C9: for every position `(r, c)` of the grid, edges and corners
included: when `(r, c)` is the one alive cell of the current grid,
`calcNextGen` returns 1 and the new current grid is all dead. -/
theorem single_cell_dies (s : ConwaysGame) (g : GenMap) (hg : s.currentGrid = some g)
    (r c : Nat) (hr : r < 32) (hc : c < 64)
    (hone : ∀ r' c', r' < 32 → c' < 64 → (g r' c' ≠ 0 ↔ r' = r ∧ c' = c)) :
    ∃ s' g', calcNextGen s = some (1, s') ∧ s'.currentGrid = some g' ∧
      ∀ r' c', r' < 32 → c' < 64 → g' r' c' = 0 := by
  obtain ⟨s', g', hstep, hg', hcells⟩ := calcNextGen_spec s g hg
  have hnew : ∀ r' c', r' < 32 → c' < 64 → newByte g r' c' = 0 := by
    intro r' c' hr' hc'
    by_contra hne
    have hrule := (newByte_ne_zero g r' c').mp hne
    obtain ⟨hle, hself⟩ := aliveNeighbours_single g r c hr hc hone r' c'
    unfold lifeRule at hrule
    rcases hrule with ⟨halive, h23⟩ | ⟨_, h3⟩
    · obtain ⟨h1, h2⟩ := (hone r' c' hr' hc').mp halive
      have := hself h1 h2
      omega
    · omega
  have hcount : changesUpTo g 32 0 = 1 := by
    rw [changesUpTo_full, ← sum_indicator r c hr hc]
    refine Finset.sum_congr rfl (fun r' hr' => Finset.sum_congr rfl (fun c' hc' => ?_))
    rw [Finset.mem_range] at hr' hc'
    unfold changed
    rw [hnew r' c' hr' hc']
    simp only [hone r' c' hr' hc']
  rw [hcount] at hstep
  exact ⟨s', g', hstep, hg', fun r' c' hr' hc' => by rw [hcells r' c' hr' hc', hnew r' c' hr' hc']⟩

theorem single_cell_dies_witness :
    (gameOn cornerOnly glider).currentGrid = some cornerOnly ∧
    (∀ r' c', r' < 32 → c' < 64 → (cornerOnly r' c' ≠ 0 ↔ r' = 0 ∧ c' = 0)) ∧
    ∃ s' g', calcNextGen (gameOn cornerOnly glider) = some (1, s') ∧
      s'.currentGrid = some g' ∧ ∀ r' c', r' < 32 → c' < 64 → g' r' c' = 0 :=
  have hone : ∀ r' c', r' < 32 → c' < 64 → (cornerOnly r' c' ≠ 0 ↔ r' = 0 ∧ c' = 0) :=
    fun r' c' _ _ => by simp [cornerOnly]
  ⟨rfl, hone, single_cell_dies (gameOn cornerOnly glider) cornerOnly rfl 0 0 (by decide)
    (by decide) hone⟩

theorem liveAt_block (g : GenMap) (r c : Nat) (hr : r + 1 < 32) (hc : c + 1 < 64)
    (hblock : ∀ r' c', r' < 32 → c' < 64 →
      (g r' c' ≠ 0 ↔ (r' = r ∨ r' = r + 1) ∧ (c' = c ∨ c' = c + 1))) (a b : Int) :
    liveAt g a b = true ↔
      (a = (r : Int) ∨ a = (r : Int) + 1) ∧ (b = (c : Int) ∨ b = (c : Int) + 1) := by
  rw [liveAt_iff]
  constructor
  · rintro ⟨h1, h2, h3, h4, h5⟩
    have := (hblock a.toNat b.toNat (by omega) (by omega)).mp h5
    omega
  · intro h
    refine ⟨by omega, by omega, by omega, by omega, ?_⟩
    exact (hblock a.toNat b.toNat (by omega) (by omega)).mpr (by omega)

theorem band_cases (x y : Int) :
    (¬(x + -1 = y ∨ x + -1 = y + 1) ∧ ¬(x + 0 = y ∨ x + 0 = y + 1) ∧ ¬(x + 1 = y ∨ x + 1 = y + 1)) ∨
    (¬(x + -1 = y ∨ x + -1 = y + 1) ∧ ¬(x + 0 = y ∨ x + 0 = y + 1) ∧ (x + 1 = y ∨ x + 1 = y + 1)) ∨
    (¬(x + -1 = y ∨ x + -1 = y + 1) ∧ (x + 0 = y ∨ x + 0 = y + 1) ∧ (x + 1 = y ∨ x + 1 = y + 1)) ∨
    ((x + -1 = y ∨ x + -1 = y + 1) ∧ (x + 0 = y ∨ x + 0 = y + 1) ∧ ¬(x + 1 = y ∨ x + 1 = y + 1)) ∨
    ((x + -1 = y ∨ x + -1 = y + 1) ∧ ¬(x + 0 = y ∨ x + 0 = y + 1) ∧ ¬(x + 1 = y ∨ x + 1 = y + 1)) := by
  omega

theorem aliveNeighbours_block (g : GenMap) (r c : Nat) (hr : r + 1 < 32) (hc : c + 1 < 64)
    (hblock : ∀ r' c', r' < 32 → c' < 64 →
      (g r' c' ≠ 0 ↔ (r' = r ∨ r' = r + 1) ∧ (c' = c ∨ c' = c + 1))) (r' c' : Nat) :
    ((r' = r ∨ r' = r + 1) ∧ (c' = c ∨ c' = c + 1) → aliveNeighbours g r' c' = 3) ∧
    (¬((r' = r ∨ r' = r + 1) ∧ (c' = c ∨ c' = c + 1)) → aliveNeighbours g r' c' ≠ 3) := by
  have hrow : ((r' = r ∨ r' = r + 1) ↔ ((r' : Int) + 0 = r ∨ (r' : Int) + 0 = r + 1)) := by omega
  have hcol : ((c' = c ∨ c' = c + 1) ↔ ((c' : Int) + 0 = c ∨ (c' : Int) + 0 = c + 1)) := by omega
  simp only [aliveNeighbours, neighbourOffsets, List.countP_cons, List.countP_nil,
    liveAt_block g r c hr hc hblock, hrow, hcol]
  rcases band_cases r' r with ⟨h1, h2, h3⟩ | ⟨h1, h2, h3⟩ | ⟨h1, h2, h3⟩ | ⟨h1, h2, h3⟩ | ⟨h1, h2, h3⟩ <;>
  rcases band_cases c' c with ⟨h4, h5, h6⟩ | ⟨h4, h5, h6⟩ | ⟨h4, h5, h6⟩ | ⟨h4, h5, h6⟩ | ⟨h4, h5, h6⟩ <;>
  simp only [h1, h2, h3, h4, h5, h6, and_self, and_true, and_false, true_and, false_and, if_true,
    if_false, not_true_eq_false, not_false_eq_true, false_implies, true_implies, implies_true]
  all_goals decide

/-- C10: the 2x2 block is a still life. For every `r`, `c` with the block
`(r,c)`, `(r,c+1)`, `(r+1,c)`, `(r+1,c+1)` inside the grid (in particular
for `r` in 1..29 and `c` in 1..61): in a seeded state whose alive cells are
exactly the block, `calcNextGen` returns 0 and the new current grid has
exactly the same alive cells. -/
theorem block_still_life (s : ConwaysGame) (hs : Seeded s) (g : GenMap)
    (hg : s.currentGrid = some g) (r c : Nat) (hr : r + 1 < 32) (hc : c + 1 < 64)
    (hblock : ∀ r' c', r' < 32 → c' < 64 →
      (g r' c' ≠ 0 ↔ (r' = r ∨ r' = r + 1) ∧ (c' = c ∨ c' = c + 1))) :
    ∃ s' g', calcNextGen s = some (0, s') ∧ s'.currentGrid = some g' ∧
      ∀ r' c', r' < 32 → c' < 64 →
        (g' r' c' ≠ 0 ↔ (r' = r ∨ r' = r + 1) ∧ (c' = c ∨ c' = c + 1)) := by
  obtain ⟨g0, hg0, hbytes⟩ := seeded_current s hs
  have hgg : g0 = g := by rw [hg] at hg0; exact (Option.some.inj hg0).symm
  subst hgg
  obtain ⟨s', g', hstep, hg', hcells⟩ := calcNextGen_spec s g0 hg
  have hnew : ∀ r' c', r' < 32 → c' < 64 →
      (newByte g0 r' c' ≠ 0 ↔ (r' = r ∨ r' = r + 1) ∧ (c' = c ∨ c' = c + 1)) := by
    intro r' c' hr' hc'
    obtain ⟨hin, hout⟩ := aliveNeighbours_block g0 r c hr hc hblock r' c'
    rw [newByte_ne_zero]
    unfold lifeRule
    constructor
    · rintro (⟨halive, _⟩ | ⟨_, h3⟩)
      · exact (hblock r' c' hr' hc').mp halive
      · by_contra hnot; exact hout hnot h3
    · intro hb
      exact Or.inl ⟨(hblock r' c' hr' hc').mpr hb, Or.inr (hin hb)⟩
  have hcount : changesUpTo g0 32 0 = 0 := by
    rw [changesUpTo_full]
    refine Finset.sum_eq_zero (fun r' hr' => Finset.sum_eq_zero (fun c' hc' => ?_))
    rw [Finset.mem_range] at hr' hc'
    have h1 := hbytes r' c' hr' hc'
    have h2 := newByte_le g0 r' c'
    have h3 := (hblock r' c' hr' hc').trans (hnew r' c' hr' hc').symm
    unfold changed
    rw [if_neg]
    intro hne
    by_cases h0 : g0 r' c' = 0
    · have : newByte g0 r' c' ≠ 0 := by omega
      exact (h3.mpr this) h0
    · have : newByte g0 r' c' ≠ 0 := h3.mp h0
      omega
  rw [hcount] at hstep
  exact ⟨s', g', hstep, hg', fun r' c' hr' hc' => by
    rw [hcells r' c' hr' hc']; exact hnew r' c' hr' hc'⟩

theorem block_still_life_witness :
    Seeded (initSeed (freshGame 0 7) true blockDraws) ∧
    (initSeed (freshGame 0 7) true blockDraws).currentGrid =
      some (initSeed (freshGame 0 7) true blockDraws).genMap_1 ∧
    (∀ r' c', r' < 32 → c' < 64 →
      ((initSeed (freshGame 0 7) true blockDraws).genMap_1 r' c' ≠ 0 ↔
        (r' = 5 ∨ r' = 5 + 1) ∧ (c' = 9 ∨ c' = 9 + 1))) ∧
    ∃ s' g', calcNextGen (initSeed (freshGame 0 7) true blockDraws) = some (0, s') ∧
      s'.currentGrid = some g' ∧
      ∀ r' c', r' < 32 → c' < 64 →
        (g' r' c' ≠ 0 ↔ (r' = 5 ∨ r' = 5 + 1) ∧ (c' = 9 ∨ c' = 9 + 1)) :=
  have hblock : ∀ r' c', r' < 32 → c' < 64 →
      ((initSeed (freshGame 0 7) true blockDraws).genMap_1 r' c' ≠ 0 ↔
        (r' = 5 ∨ r' = 5 + 1) ∧ (c' = 9 ∨ c' = 9 + 1)) :=
    fun r' c' hr' hc' => by
      rw [initSeed_random_genMap_1 _ _ r' c' hr' hc']
      by_cases h : (r' = 5 ∨ r' = 5 + 1) ∧ (c' = 9 ∨ c' = 9 + 1)
      · have hk : r' * 64 + c' = 5 * 64 + 9 ∨ r' * 64 + c' = 5 * 64 + 10 ∨
            r' * 64 + c' = 6 * 64 + 9 ∨ r' * 64 + c' = 6 * 64 + 10 := by omega
        simp only [seedByte, blockDraws, if_pos hk, if_true, h]
        decide
      · have hk : ¬(r' * 64 + c' = 5 * 64 + 9 ∨ r' * 64 + c' = 5 * 64 + 10 ∨
            r' * 64 + c' = 6 * 64 + 9 ∨ r' * 64 + c' = 6 * 64 + 10) := by omega
        simp only [seedByte, blockDraws, if_neg hk, h]
        decide
  ⟨Seeded.seed _ _ _, rfl, hblock,
    block_still_life _ (Seeded.seed _ _ _) _ rfl 5 9 (by decide) (by decide) hblock⟩

/-! ## The blinker -/

theorem segment_cases (x y : Int) :
    (¬(x + -1 = y - 1 ∨ x + -1 = y ∨ x + -1 = y + 1) ∧ ¬(x + 0 = y - 1 ∨ x + 0 = y ∨ x + 0 = y + 1) ∧
      ¬(x + 1 = y - 1 ∨ x + 1 = y ∨ x + 1 = y + 1) ∧ ¬(x + 0 = y)) ∨
    (¬(x + -1 = y - 1 ∨ x + -1 = y ∨ x + -1 = y + 1) ∧ ¬(x + 0 = y - 1 ∨ x + 0 = y ∨ x + 0 = y + 1) ∧
      (x + 1 = y - 1 ∨ x + 1 = y ∨ x + 1 = y + 1) ∧ ¬(x + 0 = y)) ∨
    (¬(x + -1 = y - 1 ∨ x + -1 = y ∨ x + -1 = y + 1) ∧ (x + 0 = y - 1 ∨ x + 0 = y ∨ x + 0 = y + 1) ∧
      (x + 1 = y - 1 ∨ x + 1 = y ∨ x + 1 = y + 1) ∧ ¬(x + 0 = y)) ∨
    ((x + -1 = y - 1 ∨ x + -1 = y ∨ x + -1 = y + 1) ∧ (x + 0 = y - 1 ∨ x + 0 = y ∨ x + 0 = y + 1) ∧
      (x + 1 = y - 1 ∨ x + 1 = y ∨ x + 1 = y + 1) ∧ x + 0 = y) ∨
    ((x + -1 = y - 1 ∨ x + -1 = y ∨ x + -1 = y + 1) ∧ (x + 0 = y - 1 ∨ x + 0 = y ∨ x + 0 = y + 1) ∧
      ¬(x + 1 = y - 1 ∨ x + 1 = y ∨ x + 1 = y + 1) ∧ ¬(x + 0 = y)) ∨
    ((x + -1 = y - 1 ∨ x + -1 = y ∨ x + -1 = y + 1) ∧ ¬(x + 0 = y - 1 ∨ x + 0 = y ∨ x + 0 = y + 1) ∧
      ¬(x + 1 = y - 1 ∨ x + 1 = y ∨ x + 1 = y + 1) ∧ ¬(x + 0 = y)) := by
  omega

theorem liveAt_rowSegment (g : GenMap) (r c : Nat) (hr : r < 32) (hc1 : 1 ≤ c) (hc2 : c + 1 < 64)
    (hrow : ∀ r' c', r' < 32 → c' < 64 →
      (g r' c' ≠ 0 ↔ r' = r ∧ (c' = c - 1 ∨ c' = c ∨ c' = c + 1))) (a b : Int) :
    liveAt g a b = true ↔
      a = (r : Int) ∧ (b = (c : Int) - 1 ∨ b = (c : Int) ∨ b = (c : Int) + 1) := by
  rw [liveAt_iff]
  constructor
  · rintro ⟨h1, h2, h3, h4, h5⟩
    have := (hrow a.toNat b.toNat (by omega) (by omega)).mp h5
    omega
  · intro h
    refine ⟨by omega, by omega, by omega, by omega, ?_⟩
    exact (hrow a.toNat b.toNat (by omega) (by omega)).mpr (by omega)

theorem liveAt_columnSegment (g : GenMap) (r c : Nat) (hr1 : 1 ≤ r) (hr2 : r + 1 < 32)
    (hc : c < 64)
    (hcol : ∀ r' c', r' < 32 → c' < 64 →
      (g r' c' ≠ 0 ↔ c' = c ∧ (r' = r - 1 ∨ r' = r ∨ r' = r + 1))) (a b : Int) :
    liveAt g a b = true ↔
      b = (c : Int) ∧ (a = (r : Int) - 1 ∨ a = (r : Int) ∨ a = (r : Int) + 1) := by
  rw [liveAt_iff]
  constructor
  · rintro ⟨h1, h2, h3, h4, h5⟩
    have := (hcol a.toNat b.toNat (by omega) (by omega)).mp h5
    omega
  · intro h
    refine ⟨by omega, by omega, by omega, by omega, ?_⟩
    exact (hcol a.toNat b.toNat (by omega) (by omega)).mpr (by omega)

/-- A horizontal blinker becomes the vertical blinker with the same centre. -/
theorem lifeRule_rowSegment (g : GenMap) (r c : Nat) (hr1 : 1 ≤ r) (hr2 : r + 1 < 32)
    (hc1 : 1 ≤ c) (hc2 : c + 1 < 64)
    (hrow : ∀ r' c', r' < 32 → c' < 64 →
      (g r' c' ≠ 0 ↔ r' = r ∧ (c' = c - 1 ∨ c' = c ∨ c' = c + 1)))
    (r' c' : Nat) (hr' : r' < 32) (hc' : c' < 64) :
    lifeRule g r' c' ↔ c' = c ∧ (r' = r - 1 ∨ r' = r ∨ r' = r + 1) := by
  have hA : (r' = r ∧ (c' = c - 1 ∨ c' = c ∨ c' = c + 1)) ↔
      ((r' : Int) + 0 = r ∧
        ((c' : Int) + 0 = (c : Int) - 1 ∨ (c' : Int) + 0 = c ∨ (c' : Int) + 0 = (c : Int) + 1)) := by
    omega
  have hT : (c' = c ∧ (r' = r - 1 ∨ r' = r ∨ r' = r + 1)) ↔
      ((c' : Int) + 0 = c ∧
        ((r' : Int) + 1 = r ∨ (r' : Int) + 0 = r ∨ (r' : Int) + -1 = r)) := by
    omega
  have hcell := (hrow r' c' hr' hc').trans hA
  have hcell0 : g r' c' = 0 ↔ ¬((r' : Int) + 0 = r ∧
      ((c' : Int) + 0 = (c : Int) - 1 ∨ (c' : Int) + 0 = c ∨ (c' : Int) + 0 = (c : Int) + 1)) := by
    rw [← hcell]; exact not_not.symm
  unfold lifeRule
  rw [hT, hcell, hcell0]
  simp only [aliveNeighbours, neighbourOffsets, List.countP_cons, List.countP_nil,
    liveAt_rowSegment g r c (by omega) hc1 hc2 hrow]
  rcases point_cases r' r with ⟨h1, h2, h3⟩ | ⟨h1, h2, h3⟩ | ⟨h1, h2, h3⟩ | ⟨h1, h2, h3⟩ <;>
  rcases segment_cases c' c with ⟨h4, h5, h6, h7⟩ | ⟨h4, h5, h6, h7⟩ | ⟨h4, h5, h6, h7⟩ |
    ⟨h4, h5, h6, h7⟩ | ⟨h4, h5, h6, h7⟩ | ⟨h4, h5, h6, h7⟩ <;>
  simp only [h4, h5, h6] <;>
  simp only [h1, h2, h3, h7, and_self, and_true, and_false, true_and, false_and,
    if_true, if_false, not_true_eq_false, not_false_eq_true, or_self, or_true, or_false,
    true_or, false_or]
  all_goals decide

/-- A vertical blinker becomes the horizontal blinker with the same centre. -/
theorem lifeRule_columnSegment (g : GenMap) (r c : Nat) (hr1 : 1 ≤ r) (hr2 : r + 1 < 32)
    (hc1 : 1 ≤ c) (hc2 : c + 1 < 64)
    (hcol : ∀ r' c', r' < 32 → c' < 64 →
      (g r' c' ≠ 0 ↔ c' = c ∧ (r' = r - 1 ∨ r' = r ∨ r' = r + 1)))
    (r' c' : Nat) (hr' : r' < 32) (hc' : c' < 64) :
    lifeRule g r' c' ↔ r' = r ∧ (c' = c - 1 ∨ c' = c ∨ c' = c + 1) := by
  have hA : (c' = c ∧ (r' = r - 1 ∨ r' = r ∨ r' = r + 1)) ↔
      ((c' : Int) + 0 = c ∧
        ((r' : Int) + 0 = (r : Int) - 1 ∨ (r' : Int) + 0 = r ∨ (r' : Int) + 0 = (r : Int) + 1)) := by
    omega
  have hT : (r' = r ∧ (c' = c - 1 ∨ c' = c ∨ c' = c + 1)) ↔
      ((r' : Int) + 0 = r ∧
        ((c' : Int) + 1 = c ∨ (c' : Int) + 0 = c ∨ (c' : Int) + -1 = c)) := by
    omega
  have hcell := (hcol r' c' hr' hc').trans hA
  have hcell0 : g r' c' = 0 ↔ ¬((c' : Int) + 0 = c ∧
      ((r' : Int) + 0 = (r : Int) - 1 ∨ (r' : Int) + 0 = r ∨ (r' : Int) + 0 = (r : Int) + 1)) := by
    rw [← hcell]; exact not_not.symm
  unfold lifeRule
  rw [hT, hcell, hcell0]
  simp only [aliveNeighbours, neighbourOffsets, List.countP_cons, List.countP_nil,
    liveAt_columnSegment g r c hr1 hr2 (by omega) hcol]
  rcases point_cases c' c with ⟨h1, h2, h3⟩ | ⟨h1, h2, h3⟩ | ⟨h1, h2, h3⟩ | ⟨h1, h2, h3⟩ <;>
  rcases segment_cases r' r with ⟨h4, h5, h6, h7⟩ | ⟨h4, h5, h6, h7⟩ | ⟨h4, h5, h6, h7⟩ |
    ⟨h4, h5, h6, h7⟩ | ⟨h4, h5, h6, h7⟩ | ⟨h4, h5, h6, h7⟩ <;>
  simp only [h4, h5, h6] <;>
  simp only [h1, h2, h3, h7, and_self, and_true, and_false, true_and, false_and,
    if_true, if_false, not_true_eq_false, not_false_eq_true, or_self, or_true, or_false,
    true_or, false_or]
  all_goals decide

theorem changed_le_changes (g : GenMap) (r c : Nat) (hr : r < 32) (hc : c < 64) :
    changed g r c ≤ changesUpTo g 32 0 := by
  rw [changesUpTo_full]
  have h1 : changed g r c ≤ ∑ c' in Finset.range 64, changed g r c' :=
    Finset.single_le_sum (f := fun c' => changed g r c') (fun _ _ => Nat.zero_le _)
      (Finset.mem_range.mpr hc)
  have h2 : ∑ c' in Finset.range 64, changed g r c' ≤
      ∑ r' in Finset.range 32, ∑ c' in Finset.range 64, changed g r' c' :=
    Finset.single_le_sum (f := fun r' => ∑ c' in Finset.range 64, changed g r' c')
      (fun _ _ => Nat.zero_le _) (Finset.mem_range.mpr hr)
  exact le_trans h1 h2

theorem changes_pos_of_birth (g : GenMap) (r c : Nat) (hr : r < 32) (hc : c < 64)
    (hdead : g r c = 0) (hborn : lifeRule g r c) : 0 < changesUpTo g 32 0 := by
  have h := changed_le_changes g r c hr hc
  have h1 : changed g r c = 1 := by
    simp [changed, newByte, hdead, hborn]
  omega

/-- C11: the blinker oscillates. For every `r` in 1..30 and `c` in 1..62:
when the alive cells of the current grid are exactly `(r,c-1)`, `(r,c)`,
`(r,c+1)`, after one `calcNextGen` they are exactly `(r-1,c)`, `(r,c)`,
`(r+1,c)`, after a second one they are again exactly `(r,c-1)`, `(r,c)`,
`(r,c+1)`, and each of the two calls returns a value greater than 0. -/
theorem blinker_oscillates (s : ConwaysGame) (g : GenMap) (hg : s.currentGrid = some g)
    (r c : Nat) (hr1 : 1 ≤ r) (hr2 : r ≤ 30) (hc1 : 1 ≤ c) (hc2 : c ≤ 62)
    (hrow : ∀ r' c', r' < 32 → c' < 64 →
      (g r' c' ≠ 0 ↔ r' = r ∧ (c' = c - 1 ∨ c' = c ∨ c' = c + 1))) :
    ∃ n1 s1 g1 n2 s2 g2, calcNextGen s = some (n1, s1) ∧ s1.currentGrid = some g1 ∧
      (∀ r' c', r' < 32 → c' < 64 →
        (g1 r' c' ≠ 0 ↔ c' = c ∧ (r' = r - 1 ∨ r' = r ∨ r' = r + 1))) ∧
      calcNextGen s1 = some (n2, s2) ∧ s2.currentGrid = some g2 ∧
      (∀ r' c', r' < 32 → c' < 64 →
        (g2 r' c' ≠ 0 ↔ r' = r ∧ (c' = c - 1 ∨ c' = c ∨ c' = c + 1))) ∧
      0 < n1 ∧ 0 < n2 := by
  obtain ⟨s1, g1, hstep1, hg1, hcells1⟩ := calcNextGen_spec s g hg
  obtain ⟨s2, g2, hstep2, hg2, hcells2⟩ := calcNextGen_spec s1 g1 hg1
  have hcol : ∀ r' c', r' < 32 → c' < 64 →
      (g1 r' c' ≠ 0 ↔ c' = c ∧ (r' = r - 1 ∨ r' = r ∨ r' = r + 1)) := by
    intro r' c' hr' hc'
    rw [hcells1 r' c' hr' hc', newByte_ne_zero]
    exact lifeRule_rowSegment g r c hr1 (by omega) hc1 (by omega) hrow r' c' hr' hc'
  have hrow2 : ∀ r' c', r' < 32 → c' < 64 →
      (g2 r' c' ≠ 0 ↔ r' = r ∧ (c' = c - 1 ∨ c' = c ∨ c' = c + 1)) := by
    intro r' c' hr' hc'
    rw [hcells2 r' c' hr' hc', newByte_ne_zero]
    exact lifeRule_columnSegment g1 r c hr1 (by omega) hc1 (by omega) hcol r' c' hr' hc'
  refine ⟨_, s1, g1, _, s2, g2, hstep1, hg1, hcol, hstep2, hg2, hrow2, ?_, ?_⟩
  · refine changes_pos_of_birth g (r - 1) c (by omega) (by omega) ?_ ?_
    · by_contra hne
      have := (hrow (r - 1) c (by omega) (by omega)).mp hne
      omega
    · exact (lifeRule_rowSegment g r c hr1 (by omega) hc1 (by omega) hrow (r - 1) c
        (by omega) (by omega)).mpr ⟨rfl, Or.inl rfl⟩
  · refine changes_pos_of_birth g1 r (c - 1) (by omega) (by omega) ?_ ?_
    · by_contra hne
      have := (hcol r (c - 1) (by omega) (by omega)).mp hne
      omega
    · exact (lifeRule_columnSegment g1 r c hr1 (by omega) hc1 (by omega) hcol r (c - 1)
        (by omega) (by omega)).mpr ⟨rfl, Or.inl rfl⟩

theorem blinker_oscillates_witness :
    (gameOn blinkerRow glider).currentGrid = some blinkerRow ∧
    (∀ r' c', r' < 32 → c' < 64 →
      (blinkerRow r' c' ≠ 0 ↔ r' = 5 ∧ (c' = 9 - 1 ∨ c' = 9 ∨ c' = 9 + 1))) ∧
    ∃ n1 s1 g1 n2 s2 g2, calcNextGen (gameOn blinkerRow glider) = some (n1, s1) ∧
      s1.currentGrid = some g1 ∧
      (∀ r' c', r' < 32 → c' < 64 →
        (g1 r' c' ≠ 0 ↔ c' = 9 ∧ (r' = 5 - 1 ∨ r' = 5 ∨ r' = 5 + 1))) ∧
      calcNextGen s1 = some (n2, s2) ∧ s2.currentGrid = some g2 ∧
      (∀ r' c', r' < 32 → c' < 64 →
        (g2 r' c' ≠ 0 ↔ r' = 5 ∧ (c' = 9 - 1 ∨ c' = 9 ∨ c' = 9 + 1))) ∧
      0 < n1 ∧ 0 < n2 :=
  have hrow : ∀ r' c', r' < 32 → c' < 64 →
      (blinkerRow r' c' ≠ 0 ↔ r' = 5 ∧ (c' = 9 - 1 ∨ c' = 9 ∨ c' = 9 + 1)) :=
    fun r' c' _ _ => by
      by_cases h : r' = 5 ∧ (c' = 8 ∨ c' = 9 ∨ c' = 10)
      · simp only [blinkerRow, if_pos h]
        exact ⟨fun _ => h, fun _ => by decide⟩
      · simp only [blinkerRow, if_neg h]
        exact ⟨fun h0 => absurd rfl h0, fun h1 => absurd h1 h⟩
  ⟨rfl, hrow, blinker_oscillates (gameOn blinkerRow glider) blinkerRow rfl 5 9 (by decide)
    (by decide) (by decide) (by decide) hrow⟩

/-! ## Seeding -/

theorem ite_or_same (a b : Prop) [Decidable a] [Decidable b] (x y : Nat) :
    (if a then x else if b then x else y) = if a ∨ b then x else y := by
  by_cases ha : a <;> by_cases hb : b <;> simp [ha, hb]

theorem loadPattern_genMap_1 (s : ConwaysGame) (r c : Nat) :
    (loadPattern s).genMap_1 r c = if inPattern r c then 1 else s.genMap_1 r c := by
  have h : (loadPattern s).genMap_1 r c =
      if r = 11 ∧ c = 31 then 1 else if r = 19 ∧ c = 31 then 1
      else if r = 15 ∧ c = 29 then 1 else if r = 15 ∧ c = 33 then 1
      else if r = 16 ∧ c = 32 then 1 else if r = 16 ∧ c = 31 then 1
      else if r = 16 ∧ c = 30 then 1 else if r = 15 ∧ c = 32 then 1
      else if r = 15 ∧ c = 30 then 1 else if r = 14 ∧ c = 32 then 1
      else if r = 14 ∧ c = 31 then 1 else if r = 14 ∧ c = 30 then 1
      else s.genMap_1 r c := rfl
  have e : (r = 11 ∧ c = 31 ∨ r = 19 ∧ c = 31 ∨ r = 15 ∧ c = 29 ∨ r = 15 ∧ c = 33 ∨
      r = 16 ∧ c = 32 ∨ r = 16 ∧ c = 31 ∨ r = 16 ∧ c = 30 ∨ r = 15 ∧ c = 32 ∨
      r = 15 ∧ c = 30 ∨ r = 14 ∧ c = 32 ∨ r = 14 ∧ c = 31 ∨ r = 14 ∧ c = 30) ↔
      inPattern r c := by
    constructor
    · rintro (hp | hp | hp | hp | hp | hp | hp | hp | hp | hp | hp | hp) <;>
        obtain ⟨hr, hc⟩ := hp <;> subst hr hc <;> decide
    · unfold inPattern
      rintro (⟨⟨h1, h2⟩, ⟨h3, h4⟩, h5⟩ | hp | hp | hp | hp)
      · interval_cases r <;> interval_cases c <;>
          first | decide | exact absurd ⟨rfl, rfl⟩ h5
      all_goals (obtain ⟨hr, hc⟩ := hp; subst hr hc; decide)
  rw [h]
  simp only [ite_or_same, e]

theorem loadPattern_genMap_2 (s : ConwaysGame) : (loadPattern s).genMap_2 = s.genMap_2 := rfl

theorem initSeed_fixed_genMap_1 (s : ConwaysGame) (draws : Nat → Nat) (r c : Nat)
    (hr : r < 32) (hc : c < 64) :
    (initSeed s false draws).genMap_1 r c = if inPattern r c then 1 else seedByte draws r c := by
  simp only [initSeed, Bool.false_eq_true, if_false]
  rw [loadPattern_genMap_1, seedLoops_genMap_1 draws s r c hr hc]

theorem seedByte_ne_zero (draws : Nat → Nat) (r c : Nat) :
    seedByte draws r c ≠ 0 ↔ draws (r * 64 + c) = 1 := by
  unfold seedByte; split_ifs with h <;> simp [h]

/-- C12: the code does not clear the grid in the fixed-pattern branch. On
`initSeed(false)` with a pseudo-random source that always returns 1, the
cell (0,0), which is not one of the 12 pattern cells, and the centre
(15,31) are alive in the current grid, where the claim says they are
dead. -/
theorem initSeed_fixed_keeps_random_cells :
    (initSeed (freshGame 0 7) false allOnes).currentGrid =
      some (initSeed (freshGame 0 7) false allOnes).genMap_1 ∧
    ¬inPattern 0 0 ∧ (initSeed (freshGame 0 7) false allOnes).genMap_1 0 0 = 1 ∧
    ¬inPattern 15 31 ∧ (initSeed (freshGame 0 7) false allOnes).genMap_1 15 31 = 1 := by
  refine ⟨rfl, by decide, ?_, by decide, ?_⟩
  · rw [initSeed_fixed_genMap_1 _ _ 0 0 (by decide) (by decide)]
    decide
  · rw [initSeed_fixed_genMap_1 _ _ 15 31 (by decide) (by decide)]
    decide

/-- C13: random seeding. After `initSeed(true)`, whatever the state before
the call, the current grid is `genMap_1`, its cell `(i, j)` is alive exactly
when draw number `i * 64 + j` equals 1, and every cell of the other grid
`genMap_2` is dead. -/
theorem initSeed_random (s : ConwaysGame) (draws : Nat → Nat) :
    (initSeed s true draws).currentGenMap = .map1 ∧
    (initSeed s true draws).currentGrid = some (initSeed s true draws).genMap_1 ∧
    (∀ i j, i < 32 → j < 64 →
      ((initSeed s true draws).genMap_1 i j ≠ 0 ↔ draws (i * 64 + j) = 1)) ∧
    (∀ i j, i < 32 → j < 64 → (initSeed s true draws).genMap_2 i j = 0) := by
  refine ⟨rfl, rfl, ?_, ?_⟩
  · intro i j hi hj
    rw [initSeed_random_genMap_1 s draws i j hi hj]
    exact seedByte_ne_zero draws i j
  · exact fun i j hi hj => initSeed_genMap_2 s true draws i j hi hj

/-- C16: the non-random seeding path randomizes before it overlays the
pattern. After `initSeed(false)`, for every draw sequence, the current grid
is `genMap_1`, its 12 pattern cells are alive, every other cell `(i, j)`,
the centre (15,31) included, is alive exactly when draw number `i * 64 + j`
equals 1, and every cell of `genMap_2` is dead. -/
theorem initSeed_fixed_randomizes (s : ConwaysGame) (draws : Nat → Nat) :
    (initSeed s false draws).currentGenMap = .map1 ∧
    (initSeed s false draws).currentGrid = some (initSeed s false draws).genMap_1 ∧
    (∀ i j, i < 32 → j < 64 → inPattern i j → (initSeed s false draws).genMap_1 i j ≠ 0) ∧
    (∀ i j, i < 32 → j < 64 → ¬inPattern i j →
      ((initSeed s false draws).genMap_1 i j ≠ 0 ↔ draws (i * 64 + j) = 1)) ∧
    ¬inPattern 15 31 ∧
    (∀ i j, i < 32 → j < 64 → (initSeed s false draws).genMap_2 i j = 0) := by
  refine ⟨rfl, rfl, ?_, ?_, by decide, ?_⟩
  · intro i j hi hj hp
    rw [initSeed_fixed_genMap_1 s draws i j hi hj, if_pos hp]
    decide
  · intro i j hi hj hp
    rw [initSeed_fixed_genMap_1 s draws i j hi hj, if_neg hp]
    exact seedByte_ne_zero draws i j
  · exact fun i j hi hj => initSeed_genMap_2 s false draws i j hi hj

/-! ## Rendering -/

theorem loadPatternChecked_eq (s : ConwaysGame) :
    loadPatternChecked s = some (loadPattern s) := rfl

theorem drawn_succ (g : GenMap) (lit dark : Nat) (i j : Nat) (hj : j < 64) :
    drawn g lit dark (i * 64 + j) ++
        [{ x := j, y := i, color := if g i j ≠ 0 then lit else dark }] =
      drawn g lit dark (i * 64 + (j + 1)) := by
  have h1 : (i * 64 + j) / 64 = i := by omega
  have h2 : (i * 64 + j) % 64 = j := by omega
  have h3 : i * 64 + (j + 1) = (i * 64 + j) + 1 := by omega
  rw [h3]
  simp only [drawn, List.range_succ, List.map_append, List.map_cons, List.map_nil, pixelAt,
    h1, h2]

theorem drawCell_eq (color565 : Nat → Nat → Nat → Nat) (s : ConwaysGame) (g : GenMap)
    (hg : s.currentGrid = some g) (display : List DrawCall) (i j : Nat) (hi : i < 32)
    (hj : j < 64) :
    drawCell color565 i j (s, display ++ drawn g s.simColor (color565 0 0 0) (i * 64 + j)) =
      some (s, display ++ drawn g s.simColor (color565 0 0 0) (i * 64 + (j + 1))) := by
  unfold drawCell
  simp only [load_current s g hg i j hi hj, Option.some_bind]
  rw [← drawn_succ g s.simColor (color565 0 0 0) i j hj, ← List.append_assoc]
  by_cases h : g i j = 0 <;> simp [h]

theorem drawRow_eq (color565 : Nat → Nat → Nat → Nat) (s : ConwaysGame) (g : GenMap)
    (hg : s.currentGrid = some g) (display : List DrawCall) (i : Nat) (hi : i < 32) :
    forLoopM gameColumns (fun j st => drawCell color565 i j st)
        (s, display ++ drawn g s.simColor (color565 0 0 0) (i * 64 + 0)) =
      some (s, display ++ drawn g s.simColor (color565 0 0 0) ((i + 1) * 64 + 0)) := by
  have h := forLoopM_eq
    (fun j => (s, display ++ drawn g s.simColor (color565 0 0 0) (i * 64 + j)))
    (fun j st => drawCell color565 i j st) 64
    (fun j hj => drawCell_eq color565 s g hg display i j hi hj)
  have e : i * 64 + 64 = (i + 1) * 64 + 0 := by omega
  simp only [e] at h
  exact h

theorem drawCurGen_eq (color565 : Nat → Nat → Nat → Nat) (s : ConwaysGame) (g : GenMap)
    (hg : s.currentGrid = some g) (display : List DrawCall) :
    drawCurGen color565 s display =
      some (s, display ++ drawn g s.simColor (color565 0 0 0) 2048) := by
  have h := forLoopM_eq
    (fun i => (s, display ++ drawn g s.simColor (color565 0 0 0) (i * 64 + 0)))
    (fun i st => forLoopM gameColumns (fun j st => drawCell color565 i j st) st) 32
    (fun i hi => drawRow_eq color565 s g hg display i hi)
  have e0 : display ++ drawn g s.simColor (color565 0 0 0) (0 * 64 + 0) = display := by
    simp [drawn]
  simp only [e0] at h
  unfold drawCurGen
  simp only [gameRows, h]

/-- C17: rendering is a read-only row-major traversal of the current grid.
With the display as a log of `drawPixel` calls, `drawCurGen` appends exactly
2048 calls, the call number `i * 64 + j` being `drawPixel(j, i, color)` with
the simulation colour when the current cell `(i, j)` is alive and
`color565(0,0,0)` otherwise, and it returns the state it was given: both
buffers, the current designation and the colour are unchanged. -/
theorem drawCurGen_renders (color565 : Nat → Nat → Nat → Nat) (s : ConwaysGame) (g : GenMap)
    (hg : s.currentGrid = some g) (display : List DrawCall) :
    ∃ calls, drawCurGen color565 s display = some (s, display ++ calls) ∧
      calls.length = 2048 ∧
      ∀ i j, i < 32 → j < 64 →
        calls[i * 64 + j]? =
          some { x := j, y := i, color := if g i j ≠ 0 then s.simColor else color565 0 0 0 } := by
  refine ⟨drawn g s.simColor (color565 0 0 0) 2048, drawCurGen_eq color565 s g hg display, ?_, ?_⟩
  · simp [drawn]
  · intro i j hi hj
    have hk : i * 64 + j < 2048 := by omega
    have h1 : (i * 64 + j) / 64 = i := by omega
    have h2 : (i * 64 + j) % 64 = j := by omega
    simp [drawn, pixelAt, hk, h1, h2]

theorem drawCurGen_renders_witness :
    gliderInTwo.currentGrid = some glider ∧
    ∃ calls, drawCurGen (fun _ _ _ => 0) gliderInTwo [] = some (gliderInTwo, [] ++ calls) ∧
      calls.length = 2048 ∧
      ∀ i j, i < 32 → j < 64 →
        calls[i * 64 + j]? =
          some { x := j, y := i,
                 color := if glider i j ≠ 0 then gliderInTwo.simColor
                          else (fun _ _ _ => 0) 0 0 0 } :=
  ⟨rfl, drawCurGen_renders (fun _ _ _ => 0) gliderInTwo glider rfl []⟩

/-! ## The control loop -/

/-- C14: the stagnation policy of `loop()`. The global `cellsUpdated` is 0
when `setup()` hands over; in every pass, on a seeded simulation, the grid
is reseeded by `initSeed(true)` before `calcNextGen` when the stored count
is at most 35 and advanced as it is when the count is above 35, and in both
cases `cellsUpdated` becomes the value this pass's `calcNextGen` returns. -/
theorem loop_reseeds_when_quiet (color565 : Nat → Nat → Nat → Nat) (draws : Nat → Nat)
    (w : Sketch) (hs : Seeded w.simulation) :
    (w.cellsUpdated ≤ 35 →
      ∃ n s' d, calcNextGen (initSeed w.simulation true draws) = some (n, s') ∧
        loop color565 draws w = some { simulation := s', cellsUpdated := n, display := d }) ∧
    (35 < w.cellsUpdated →
      ∃ n s' d, calcNextGen w.simulation = some (n, s') ∧
        loop color565 draws w = some { simulation := s', cellsUpdated := n, display := d }) ∧
    (∀ disp color display w0, setup color565 disp color draws display = some w0 →
      w0.cellsUpdated = 0 ∧ Seeded w0.simulation) := by
  have step : ∀ t : ConwaysGame, Seeded t → ∃ n s' d, calcNextGen t = some (n, s') ∧
      ((calcNextGen t).bind fun r => (drawCurGen color565 r.2 w.display).bind fun d =>
        some ({ simulation := d.1, cellsUpdated := r.1, display := d.2 } : Sketch)) =
        some { simulation := s', cellsUpdated := n, display := d } := by
    intro t ht
    obtain ⟨g, hg, _⟩ := seeded_current t ht
    obtain ⟨s', g', hstep, hg', _⟩ := calcNextGen_spec t g hg
    refine ⟨_, s', w.display ++ drawn g' s'.simColor (color565 0 0 0) 2048, hstep, ?_⟩
    rw [hstep]
    simp only [Option.some_bind, drawCurGen_eq color565 s' g' hg' w.display]
  refine ⟨fun hle => ?_, fun hgt => ?_, ?_⟩
  · obtain ⟨n, s', d, h1, h2⟩ := step _ (Seeded.seed w.simulation true draws)
    refine ⟨n, s', d, h1, ?_⟩
    unfold loop
    simp only [updateThreshold, hle, if_true]
    exact h2
  · obtain ⟨n, s', d, h1, h2⟩ := step _ hs
    refine ⟨n, s', d, h1, ?_⟩
    unfold loop
    have : ¬(w.cellsUpdated ≤ 35) := by omega
    simp only [updateThreshold, this, if_false]
    exact h2
  · intro disp color display w0 h0
    unfold setup at h0
    rw [drawCurGen_eq color565 (initSeed (freshGame disp color) true draws)
      (initSeed (freshGame disp color) true draws).genMap_1 rfl display] at h0
    simp only [Option.some_bind, Option.some.injEq] at h0
    rw [← h0]
    exact ⟨rfl, Seeded.seed _ _ _⟩

theorem loop_reseeds_when_quiet_witness :
    Seeded busySketch.simulation ∧ 35 < busySketch.cellsUpdated ∧
    Seeded quietSketch.simulation ∧ quietSketch.cellsUpdated ≤ 35 ∧
    (∃ n s' d, calcNextGen busySketch.simulation = some (n, s') ∧
      loop (fun _ _ _ => 0) thirds busySketch =
        some { simulation := s', cellsUpdated := n, display := d }) ∧
    (∃ n s' d, calcNextGen (initSeed quietSketch.simulation true thirds) = some (n, s') ∧
      loop (fun _ _ _ => 0) thirds quietSketch =
        some { simulation := s', cellsUpdated := n, display := d }) :=
  ⟨Seeded.seed _ _ _, by decide, Seeded.seed _ _ _, by decide,
    (loop_reseeds_when_quiet (fun _ _ _ => 0) thirds busySketch (Seeded.seed _ _ _)).2.1
      (by decide),
    (loop_reseeds_when_quiet (fun _ _ _ => 0) thirds quietSketch (Seeded.seed _ _ _)).1
      (by decide)⟩

/-! ## Array bounds, frame and cell values -/

/-- C15: no out-of-range grid access. Array reads and writes return `none`
on an index outside `[0,32) x [0,64)`; on every state that has a current
grid, `checkNeighbors(y, x, 32, 64)` returns for all `y < 32`, `x < 64`,
`calcNextGen` and `drawCurGen` return, and the 12 writes of the
fixed-pattern branch of `initSeed`, with their indices checked, all
succeed and give the state of `loadPattern`. -/
theorem no_out_of_range_access (color565 : Nat → Nat → Nat → Nat) (s : ConwaysGame)
    (g : GenMap) (hg : s.currentGrid = some g) (display : List DrawCall) :
    (∀ y x, y < 32 → x < 64 → ∃ b, checkNeighbors s y x 32 64 = some b) ∧
    (∃ n s', calcNextGen s = some (n, s')) ∧
    (∃ s' d, drawCurGen color565 s display = some (s', d)) ∧
    loadPatternChecked s = some (loadPattern s) := by
  refine ⟨fun y x hy hx => ⟨_, checkNeighbors_eq s g hg y x hy hx⟩, ?_, ?_, rfl⟩
  · exact ⟨_, _, calcNextGen_eq s g hg⟩
  · exact ⟨_, _, drawCurGen_eq color565 s g hg display⟩

theorem no_out_of_range_access_witness :
    (gameOn cornerAndFarEdges glider).currentGrid = some cornerAndFarEdges ∧
    (∀ y x, y < 32 → x < 64 →
      ∃ b, checkNeighbors (gameOn cornerAndFarEdges glider) y x 32 64 = some b) ∧
    (∃ n s', calcNextGen (gameOn cornerAndFarEdges glider) = some (n, s')) ∧
    (∃ s' d, drawCurGen (fun _ _ _ => 0) (gameOn cornerAndFarEdges glider) [] = some (s', d)) ∧
    loadPatternChecked (gameOn cornerAndFarEdges glider) =
      some (loadPattern (gameOn cornerAndFarEdges glider)) :=
  ⟨rfl, no_out_of_range_access (fun _ _ _ => 0) (gameOn cornerAndFarEdges glider)
    cornerAndFarEdges rfl []⟩

/-- C18: `calcNextGen` writes only the scratch buffer. For every seeded
state, after the call the grid that is not current is the current grid of
before the call, the buffer that was current is unchanged, and the
simulation colour and the display pointer are unchanged. -/
theorem calcNextGen_frame (s : ConwaysGame) (hs : Seeded s) :
    ∃ g n s', s.currentGrid = some g ∧ calcNextGen s = some (n, s') ∧
      s'.scratchGrid = some g ∧
      (s.currentGenMap = .map1 → s'.genMap_1 = s.genMap_1) ∧
      (s.currentGenMap = .map2 → s'.genMap_2 = s.genMap_2) ∧
      s'.simColor = s.simColor ∧ s'.matrix = s.matrix := by
  obtain ⟨g, hg, _⟩ := seeded_current s hs
  refine ⟨g, _, advanced s g, hg, calcNextGen_eq s g hg, ?_⟩
  rcases current_cases s g hg with ⟨hc, rfl⟩ | ⟨hc, rfl⟩
  · rw [advanced_map1 s _ hc]
    refine ⟨rfl, fun _ => rfl, fun h => ?_, rfl, rfl⟩
    rw [hc] at h; cases h
  · rw [advanced_map2 s _ hc]
    refine ⟨rfl, fun h => ?_, fun _ => rfl, rfl, rfl⟩
    rw [hc] at h; cases h

theorem calcNextGen_frame_witness :
    Seeded gliderAfterSeed ∧
    ∃ g n s', gliderAfterSeed.currentGrid = some g ∧
      calcNextGen gliderAfterSeed = some (n, s') ∧
      s'.scratchGrid = some g ∧
      (gliderAfterSeed.currentGenMap = .map1 → s'.genMap_1 = gliderAfterSeed.genMap_1) ∧
      (gliderAfterSeed.currentGenMap = .map2 → s'.genMap_2 = gliderAfterSeed.genMap_2) ∧
      s'.simColor = gliderAfterSeed.simColor ∧ s'.matrix = gliderAfterSeed.matrix :=
  ⟨Seeded.seed _ _ _, calcNextGen_frame gliderAfterSeed (Seeded.seed _ _ _)⟩

/-- C19: the cell-value invariant. In every seeded state (one `initSeed` in
either mode, then any number of `calcNextGen` and `initSeed` calls) every
byte of `genMap_1` and of `genMap_2` is 0 or 1; consequently, at every cell,
the byte written by the next `calcNextGen` is unequal to the byte of the
current grid exactly when the two differ in alive/dead state. -/
theorem seeded_bytes_are_bits (s : ConwaysGame) (hs : Seeded s) :
    (∀ r c, r < 32 → c < 64 →
      (s.genMap_1 r c = 0 ∨ s.genMap_1 r c = 1) ∧ (s.genMap_2 r c = 0 ∨ s.genMap_2 r c = 1)) ∧
    ∃ g n s' g', s.currentGrid = some g ∧ calcNextGen s = some (n, s') ∧
      s'.currentGrid = some g' ∧
      ∀ r c, r < 32 → c < 64 → (g r c ≠ g' r c ↔ ¬(g r c ≠ 0 ↔ g' r c ≠ 0)) := by
  obtain ⟨_, hbytes⟩ := seeded_inv s hs
  obtain ⟨g, hg, hgb⟩ := seeded_current s hs
  obtain ⟨s', g', hstep, hg', hcells⟩ := calcNextGen_spec s g hg
  refine ⟨fun r c hr hc => ?_, g, _, s', g', hg, hstep, hg', fun r c hr hc => ?_⟩
  · have := hbytes r c hr hc
    omega
  · have h1 := hgb r c hr hc
    have h2 := newByte_le g r c
    rw [hcells r c hr hc]
    constructor
    · intro hne hiff
      by_cases h0 : g r c = 0
      · have : newByte g r c = 0 := by
          by_contra hn; exact (hiff.mpr hn) h0
        omega
      · have : newByte g r c ≠ 0 := hiff.mp h0
        omega
    · intro hnot heq
      apply hnot
      rw [heq]

theorem seeded_bytes_are_bits_witness :
    Seeded (initSeed (freshGame 0 7) false thirds) ∧
    (∀ r c, r < 32 → c < 64 →
      ((initSeed (freshGame 0 7) false thirds).genMap_1 r c = 0 ∨
        (initSeed (freshGame 0 7) false thirds).genMap_1 r c = 1) ∧
      ((initSeed (freshGame 0 7) false thirds).genMap_2 r c = 0 ∨
        (initSeed (freshGame 0 7) false thirds).genMap_2 r c = 1)) ∧
    ∃ g n s' g', (initSeed (freshGame 0 7) false thirds).currentGrid = some g ∧
      calcNextGen (initSeed (freshGame 0 7) false thirds) = some (n, s') ∧
      s'.currentGrid = some g' ∧
      ∀ r c, r < 32 → c < 64 → (g r c ≠ g' r c ↔ ¬(g r c ≠ 0 ↔ g' r c ≠ 0)) :=
  ⟨Seeded.seed _ _ _, seeded_bytes_are_bits _ (Seeded.seed _ _ _)⟩

/-! ## Mirror symmetry -/

theorem liveAt_mirrorLR (g : GenMap) (a b : Int) :
    liveAt (mirrorLR g) a b = liveAt g a (63 - b) := by
  rw [Bool.eq_iff_iff, liveAt_iff, liveAt_iff]
  unfold mirrorLR
  constructor
  · rintro ⟨h1, h2, h3, h4, h5⟩
    have e : (63 - b).toNat = 63 - b.toNat := by omega
    exact ⟨h1, h2, by omega, by omega, by rw [e]; exact h5⟩
  · rintro ⟨h1, h2, h3, h4, h5⟩
    have e : (63 - b).toNat = 63 - b.toNat := by omega
    exact ⟨h1, h2, by omega, by omega, by rw [← e]; exact h5⟩

theorem liveAt_mirrorTB (g : GenMap) (a b : Int) :
    liveAt (mirrorTB g) a b = liveAt g (31 - a) b := by
  rw [Bool.eq_iff_iff, liveAt_iff, liveAt_iff]
  unfold mirrorTB
  constructor
  · rintro ⟨h1, h2, h3, h4, h5⟩
    have e : (31 - a).toNat = 31 - a.toNat := by omega
    exact ⟨by omega, by omega, h3, h4, by rw [e]; exact h5⟩
  · rintro ⟨h1, h2, h3, h4, h5⟩
    have e : (31 - a).toNat = 31 - a.toNat := by omega
    exact ⟨by omega, by omega, h3, h4, by rw [← e]; exact h5⟩

theorem aliveNeighbours_mirrorLR (g : GenMap) (r c : Nat) (hc : c < 64) :
    aliveNeighbours (mirrorLR g) r c = aliveNeighbours g r (63 - c) := by
  have e1 : (63 : Int) - ((c : Int) + -1) = ((63 - c : Nat) : Int) + 1 := by omega
  have e2 : (63 : Int) - ((c : Int) + 0) = ((63 - c : Nat) : Int) + 0 := by omega
  have e3 : (63 : Int) - ((c : Int) + 1) = ((63 - c : Nat) : Int) + -1 := by omega
  simp only [aliveNeighbours, neighbourOffsets, List.countP_cons, List.countP_nil,
    liveAt_mirrorLR, e1, e2, e3]
  ac_rfl

theorem aliveNeighbours_mirrorTB (g : GenMap) (r c : Nat) (hr : r < 32) :
    aliveNeighbours (mirrorTB g) r c = aliveNeighbours g (31 - r) c := by
  have e1 : (31 : Int) - ((r : Int) + -1) = ((31 - r : Nat) : Int) + 1 := by omega
  have e2 : (31 : Int) - ((r : Int) + 0) = ((31 - r : Nat) : Int) + 0 := by omega
  have e3 : (31 : Int) - ((r : Int) + 1) = ((31 - r : Nat) : Int) + -1 := by omega
  simp only [aliveNeighbours, neighbourOffsets, List.countP_cons, List.countP_nil,
    liveAt_mirrorTB, e1, e2, e3]
  ac_rfl

theorem newByte_mirrorLR (g : GenMap) (r c : Nat) (hc : c < 64) :
    newByte (mirrorLR g) r c = newByte g r (63 - c) := by
  have h : lifeRule (mirrorLR g) r c ↔ lifeRule g r (63 - c) := by
    unfold lifeRule
    rw [aliveNeighbours_mirrorLR g r c hc]
    exact Iff.rfl
  unfold newByte
  exact if_congr h rfl rfl

theorem newByte_mirrorTB (g : GenMap) (r c : Nat) (hr : r < 32) :
    newByte (mirrorTB g) r c = newByte g (31 - r) c := by
  have h : lifeRule (mirrorTB g) r c ↔ lifeRule g (31 - r) c := by
    unfold lifeRule
    rw [aliveNeighbours_mirrorTB g r c hr]
    exact Iff.rfl
  unfold newByte
  exact if_congr h rfl rfl

theorem changes_mirrorLR (g gl : GenMap)
    (hl : ∀ r c, r < 32 → c < 64 → gl r c = g r (63 - c)) :
    (∀ r c, r < 32 → c < 64 → newByte gl r c = newByte g r (63 - c)) ∧
      changesUpTo gl 32 0 = changesUpTo g 32 0 := by
  have halive : ∀ r c, r < 32 → c < 64 → (gl r c ≠ 0 ↔ mirrorLR g r c ≠ 0) := by
    intro r c hr hc; rw [hl r c hr hc]; rfl
  have hnew : ∀ r c, r < 32 → c < 64 → newByte gl r c = newByte g r (63 - c) := by
    intro r c hr hc
    rw [newByte_congr gl (mirrorLR g) halive r c hr hc, newByte_mirrorLR g r c hc]
  refine ⟨hnew, ?_⟩
  rw [changesUpTo_full, changesUpTo_full]
  refine Finset.sum_congr rfl (fun r hr => ?_)
  rw [Finset.mem_range] at hr
  have hrefl := Finset.sum_range_reflect (fun c => changed g r c) 64
  rw [← hrefl]
  refine Finset.sum_congr rfl (fun c hc => ?_)
  rw [Finset.mem_range] at hc
  have e : 64 - 1 - c = 63 - c := by omega
  simp only [changed, hl r c hr hc, hnew r c hr hc, e]

theorem changes_mirrorTB (g gt : GenMap)
    (ht : ∀ r c, r < 32 → c < 64 → gt r c = g (31 - r) c) :
    (∀ r c, r < 32 → c < 64 → newByte gt r c = newByte g (31 - r) c) ∧
      changesUpTo gt 32 0 = changesUpTo g 32 0 := by
  have halive : ∀ r c, r < 32 → c < 64 → (gt r c ≠ 0 ↔ mirrorTB g r c ≠ 0) := by
    intro r c hr hc; rw [ht r c hr hc]; rfl
  have hnew : ∀ r c, r < 32 → c < 64 → newByte gt r c = newByte g (31 - r) c := by
    intro r c hr hc
    rw [newByte_congr gt (mirrorTB g) halive r c hr hc, newByte_mirrorTB g r c hr]
  refine ⟨hnew, ?_⟩
  rw [changesUpTo_full, changesUpTo_full]
  have hrefl := Finset.sum_range_reflect
    (fun r => ∑ c in Finset.range 64, changed g r c) 32
  rw [← hrefl]
  refine Finset.sum_congr rfl (fun r hr => Finset.sum_congr rfl (fun c hc => ?_))
  rw [Finset.mem_range] at hr hc
  have e : 32 - 1 - r = 31 - r := by omega
  simp only [changed, ht r c hr hc, hnew r c hr hc, e]

/-- C20: the step commutes with the mirror symmetries of the grid. For
every grid `g`: from a state whose current grid is the left-right mirror
of `g`, `calcNextGen` gives the left-right mirror of what it gives from `g`;
from a state whose current grid is the top-bottom mirror of `g`, it gives
the top-bottom mirror; and both calls return the change count returned
for `g`. -/
theorem calcNextGen_commutes_with_mirrors (s sl st : ConwaysGame) (g : GenMap)
    (hg : s.currentGrid = some g) (hl : sl.currentGrid = some (mirrorLR g))
    (ht : st.currentGrid = some (mirrorTB g)) :
    ∃ n s' g' nl sl' gl' nt st' gt', calcNextGen s = some (n, s') ∧ s'.currentGrid = some g' ∧
      calcNextGen sl = some (nl, sl') ∧ sl'.currentGrid = some gl' ∧
      calcNextGen st = some (nt, st') ∧ st'.currentGrid = some gt' ∧
      (∀ r c, r < 32 → c < 64 → gl' r c = mirrorLR g' r c) ∧
      (∀ r c, r < 32 → c < 64 → gt' r c = mirrorTB g' r c) ∧
      nl = n ∧ nt = n := by
  obtain ⟨s', g', hstep, hg', hcells⟩ := calcNextGen_spec s g hg
  obtain ⟨sl', gl', hstepl, hgl', hcellsl⟩ := calcNextGen_spec sl (mirrorLR g) hl
  obtain ⟨st', gt', hstept, hgt', hcellst⟩ := calcNextGen_spec st (mirrorTB g) ht
  obtain ⟨hnewl, hcountl⟩ := changes_mirrorLR g (mirrorLR g) (fun _ _ _ _ => rfl)
  obtain ⟨hnewt, hcountt⟩ := changes_mirrorTB g (mirrorTB g) (fun _ _ _ _ => rfl)
  refine ⟨_, s', g', _, sl', gl', _, st', gt', hstep, hg', hstepl, hgl', hstept, hgt',
    ?_, ?_, hcountl, hcountt⟩
  · intro r c hr hc
    rw [hcellsl r c hr hc, hnewl r c hr hc]
    exact (hcells r (63 - c) hr (by omega)).symm
  · intro r c hr hc
    rw [hcellst r c hr hc, hnewt r c hr hc]
    exact (hcells (31 - r) c (by omega) hc).symm

theorem calcNextGen_commutes_with_mirrors_witness :
    gliderInOne.currentGrid = some glider ∧
    (gameOn (mirrorLR glider) cornerOnly).currentGrid = some (mirrorLR glider) ∧
    (gameOn (mirrorTB glider) cornerOnly).currentGrid = some (mirrorTB glider) ∧
    ∃ n s' g' nl sl' gl' nt st' gt', calcNextGen gliderInOne = some (n, s') ∧
      s'.currentGrid = some g' ∧
      calcNextGen (gameOn (mirrorLR glider) cornerOnly) = some (nl, sl') ∧
      sl'.currentGrid = some gl' ∧
      calcNextGen (gameOn (mirrorTB glider) cornerOnly) = some (nt, st') ∧
      st'.currentGrid = some gt' ∧
      (∀ r c, r < 32 → c < 64 → gl' r c = mirrorLR g' r c) ∧
      (∀ r c, r < 32 → c < 64 → gt' r c = mirrorTB g' r c) ∧
      nl = n ∧ nt = n :=
  ⟨rfl, rfl, rfl,
    calcNextGen_commutes_with_mirrors gliderInOne (gameOn (mirrorLR glider) cornerOnly)
      (gameOn (mirrorTB glider) cornerOnly) glider rfl rfl rfl⟩

end ConwaysLife
